import Mathlib

/-
Verification of the torch.package `PackageExporter` core
(src/torch/package/package_exporter.py).

The exporter is embedded shallowly:
* dotted-name utilities mirror the Python string operations used by the
  exporter (`partition`, `split`, `rsplit`, `replace`, `join`);
* the glob engine (`glob_group.py`), the dependency digraph (`_digraph.py`),
  the stdlib oracle (`_stdlib.py`), the import scanner
  (`find_file_dependencies.py`), the mangling check (`_mangling.py`) and the
  resource-path normaliser (`_importlib._normalize_path`) are not part of the
  sources under verification; they are modelled from the specification, as
  noted on each definition;
* the importer, the pickler's opcode stream and the `_mock.py` file contents
  are external collaborators and enter as oracle fields of `Env`;
* exceptions become `Except`/result values, and the recursive dependency
  closure is written with explicit fuel (structurally recursive, so that it
  evaluates inside the kernel).
-/

set_option autoImplicit false

namespace TorchPackage

/-! ## Dotted-name string utilities -/

/-- Characters of `l` strictly before the first occurrence of `c`
(the whole list when `c` does not occur).  Mirrors Python's
`s.partition(c)[0]`. -/
def takeUntilChar (c : Char) : List Char → List Char
  | [] => []
  | a :: rest => if a = c then [] else a :: takeUntilChar c rest

/-- Split a character list at every occurrence of `c`.
Mirrors Python's `s.split(c)` for a one-character separator. -/
def splitCharList (c : Char) : List Char → List (List Char)
  | [] => [[]]
  | a :: rest =>
    if a = c then [] :: splitCharList c rest
    else
      match splitCharList c rest with
      | [] => [[a]]
      | l :: ls => (a :: l) :: ls

/-- Split a string at every occurrence of the character `c`. -/
def splitChar (c : Char) (s : String) : List String :=
  (splitCharList c s.data).map (fun l => ⟨l⟩)

/-- The root segment of a qualified name: Python `name.partition(".")[0]`. -/
def rootOf (s : String) : String :=
  ⟨takeUntilChar '.' s.data⟩

/-- Python `s.rsplit(".", maxsplit=1)[0]`: everything before the last dot,
or the whole string when there is no dot. -/
def parentName (s : String) : String :=
  let segs := splitChar '.' s
  if segs.length ≤ 1 then s else String.intercalate "." segs.dropLast

/-- Python `module_name.replace(".", "/")`. -/
def dotsToSlashes (s : String) : String :=
  ⟨s.data.map (fun c => if c = '.' then '/' else c)⟩

/-- Python `sep.join(l)`. -/
def joinWith (sep : String) : List String → String
  | [] => ""
  | [x] => x
  | x :: rest => x ++ sep ++ joinWith sep rest

/-- The substring of `s` strictly before the first space. -/
def beforeFirstSpace (s : String) : String :=
  ⟨takeUntilChar ' ' s.data⟩

/-! ## Glob engine

Modelled from the spec: the glob engine (`glob_group.py`) is not among the
sources under verification.  Spec §4.1: a pattern is a dotted sequence of
segments; `*` matches exactly one dot-free segment, `**` matches zero or more
segments, literal segments match byte-for-byte, and a name matches iff the
entire name is consumed.  A `GlobGroup` is an include list and an exclude
list; a name matches iff some include pattern matches and no exclude pattern
does.  Pattern equality is by the canonical include/exclude pair. -/

/-- Fuelled matcher of a segment-pattern list against a name-segment list.
The fuel only serves to make the recursion structural; `segsMatch` always
supplies enough. -/
def segsMatchF : Nat → List String → List String → Bool
  | _, [], ns => ns.isEmpty
  | 0, _ :: _, _ => false
  | fuel + 1, p :: ps, ns =>
    if p = "**" then
      segsMatchF fuel ps ns ||
        (match ns with
         | [] => false
         | _ :: ns2 => segsMatchF fuel (p :: ps) ns2)
    else
      match ns with
      | [] => false
      | n :: ns2 => (p = "*" || p = n) && segsMatchF fuel ps ns2

/-- Modelled from the spec: segment-list glob matching (§4.1). -/
def segsMatch (ps ns : List String) : Bool :=
  segsMatchF (ps.length + ns.length) ps ns

/-- Modelled from the spec: whether the glob pattern `pat` matches the dotted
name `name`. -/
def globMatchStr (pat name : String) : Bool :=
  segsMatch (splitChar '.' pat) (splitChar '.' name)

/-- Modelled from the spec: a compiled glob group (include and exclude
pattern lists); equality is structural, by the include/exclude pair. -/
structure GlobGroup where
  includes : List String
  excludes : List String
deriving DecidableEq, Repr

/-- Modelled from the spec: a name matches a glob group iff some include
pattern matches it and no exclude pattern does. -/
def GlobGroup.matches (g : GlobGroup) (name : String) : Bool :=
  g.includes.any (fun p => globMatchStr p name) &&
    !(g.excludes.any (fun p => globMatchStr p name))

/-- The glob group built from a single literal pattern, as in
`GlobGroup(module_name)`. -/
def globSingle (name : String) : GlobGroup :=
  ⟨[name], []⟩

/-! ## Data model -/

/-- The error kinds raised by the exporter core.  `denied` is
`DeniedModuleError`, `emptyMatch` is `EmptyMatchError`, `unclassified` is the
`RuntimeError` of `_compute_patterns` on unclassified nodes, `invalidName` is
the `RuntimeError` of `_write` on mangled paths, `moduleNotFound` is
`ModuleNotFoundError`, `sourceUnavailable` is the `ValueError` of
`_get_source_of_module`, `valueError` is the unpack failure of
`arg.split(" ")` in `save_pickle`, and `keyError` is a missing graph-node
attribute lookup. -/
inductive PkgError where
  | denied (moduleName : String)
  | unclassified (moduleNames : List String)
  | emptyMatch (pattern : GlobGroup)
  | moduleNotFound (moduleName : String)
  | sourceUnavailable (moduleName : String)
  | invalidName (filename : String)
  | valueError (arg : String)
  | keyError (name : String)
deriving DecidableEq, Repr

/-- The four pattern actions.  In the source each is a bound method
(`save_intern_module`, `save_mock_module`, `save_extern_module`,
`_reject_denied_module`); here they form a closed sum.  (`externalize`
stands for the extern action.) -/
inductive Action where
  | intern
  | mock
  | externalize
  | deny
deriving DecidableEq, Repr

/-- One entry of `self.patterns`: `(GlobGroup, action, allow_empty)`. -/
structure Rule where
  pattern : GlobGroup
  action : Action
  allowEmpty : Bool
deriving DecidableEq, Repr

/-- Attributes stored on a dependency-graph node (`src`, `is_package`,
`is_pickle`); absent attributes are `none`. -/
structure NodeAttrs where
  src : Option String := none
  isPackage : Option Bool := none
  isPickle : Option Bool := none
deriving DecidableEq, Repr

/-- What the importer knows about a module: the text of its `.py` source
file (`none` when the module has no usable source file, e.g. an extension
module) and whether it is a package (`hasattr(module, "__path__")`). -/
structure ModEntry where
  source : Option String
  isPackage : Bool
deriving DecidableEq, Repr

/-- The external collaborators of the exporter:
* `modules` — the importer, as a finite name → module table;
* `scanner` — modelled from the spec: `find_files_source_depends_on`, a pure
  function from source text and enclosing package name to a list of
  `(dep_name, trailing_symbol?)` pairs (spec §4.3, §6.2);
* `stdlib` — modelled from the spec: the stdlib oracle `is_stdlib_module`, a
  pure predicate on a root segment (spec §6.2);
* `normalizePath` — modelled from the spec: `_normalize_path` for resource
  names (spec §6.1: resources land at exactly the normalised resource path);
* `mockSrc` — the contents of the `_mock.py` file read by `_compute_patterns`.
-/
structure Env where
  modules : List (String × ModEntry)
  scanner : String → String → List (String × Option String)
  stdlib : String → Bool
  normalizePath : String → String
  mockSrc : String

/-- The mutable state of a `PackageExporter`.  The three disposition tables
are Python dicts used as insertion-ordered sets; `graph` is the dependency
digraph (insertion-ordered node list with attributes, plus an edge list);
`matched` is `matched_patterns`; `records` is the sequence of
`(path, contents)` pairs handed to the archive writer. -/
structure ExporterState where
  internModules : List String
  externModules : List String
  mockModules : List String
  graph : List (String × NodeAttrs)
  edges : List (String × String)
  patterns : List Rule
  matched : List GlobGroup
  records : List (String × String)
deriving DecidableEq, Repr

/-- A freshly-constructed exporter. -/
def initialState : ExporterState :=
  ⟨[], [], [], [], [], [], [], []⟩

/-- Result of a fuelled computation: `out` means the fuel ran dry. -/
inductive FuelResult (α : Type) where
  | out
  | err (e : PkgError)
  | ok (a : α)
deriving DecidableEq, Repr

/-! ## Dependency graph

Modelled from the spec: the digraph (`_digraph.py`) is not among the sources
under verification.  Spec §4.2: `add_node` creates or updates a node with
last-writer-wins attribute merge, `add_edge` auto-creates its endpoints,
nodes are traversed in insertion order, and there is no removal. -/

/-- Look up a key in an association list. -/
def lookupNode : List (String × NodeAttrs) → String → Option NodeAttrs
  | [], _ => none
  | (k, v) :: rest, n => if k = n then some v else lookupNode rest n

/-- Last-writer-wins merge of node attributes. -/
def mergeAttrs (old new : NodeAttrs) : NodeAttrs :=
  ⟨new.src <|> old.src, new.isPackage <|> old.isPackage,
   new.isPickle <|> old.isPickle⟩

/-- Modelled from the spec: `add_node` — create the node or merge the new
attributes into it, keeping its insertion position. -/
def addNodeAttrs : List (String × NodeAttrs) → String → NodeAttrs →
    List (String × NodeAttrs)
  | [], name, attrs => [(name, attrs)]
  | (k, old) :: rest, name, attrs =>
    if k = name then (k, mergeAttrs old attrs) :: rest
    else (k, old) :: addNodeAttrs rest name attrs

/-- `add_node` with no attributes. -/
def addNodeBare (g : List (String × NodeAttrs)) (name : String) :
    List (String × NodeAttrs) :=
  addNodeAttrs g name ⟨none, none, none⟩

/-- Membership test `name in self.dependency_graph`. -/
def containsNode (g : List (String × NodeAttrs)) (name : String) : Bool :=
  (lookupNode g name).isSome

/-- The graph's node names in insertion order. -/
def graphNames (st : ExporterState) : List String :=
  st.graph.map Prod.fst

/-- Modelled from the spec: `add_edge u v` auto-creates both endpoints and
appends the edge. -/
def addEdgeState (st : ExporterState) (u v : String) : ExporterState :=
  { st with
    graph := addNodeBare (addNodeBare st.graph u) v
    edges := st.edges ++ [(u, v)] }

/-! ## Importer adapter and implicit-extern test -/

/-- Look up a module in the importer table. -/
def lookupMod : List (String × ModEntry) → String → Option ModEntry
  | [], _ => none
  | (k, v) :: rest, n => if k = n then some v else lookupMod rest n

/-- `_import_module`: resolve via the importer or fail with
`ModuleNotFoundError` (the mangled special case only changes the message). -/
def importModule (env : Env) (name : String) : Except PkgError ModEntry :=
  match lookupMod env.modules name with
  | some e => Except.ok e
  | none => Except.error (PkgError.moduleNotFound name)

/-- `_module_exists`: `_import_module` wrapped in a try/except. -/
def moduleExists (env : Env) (name : String) : Bool :=
  (lookupMod env.modules name).isSome

/-- `_get_source_of_module`: the module's `.py` source text, or a
`ValueError` when its source file cannot be found. -/
def getSourceOfModule (entry : ModEntry) (name : String) :
    Except PkgError String :=
  match entry.source with
  | some s => Except.ok s
  | none => Except.error (PkgError.sourceUnavailable name)

/-- `_DISALLOWED_MODULES`: stdlib roots never implicitly externed. -/
def disallowedModules : List String := ["sys", "io"]

/-- `_can_implicitly_extern`: the root is `torch`, or is recognised by the
stdlib oracle and is not disallowed. -/
def canImplicitlyExtern (stdlib : String → Bool) (moduleName : String) :
    Bool :=
  let top := rootOf moduleName
  top = "torch" || (!(decide (top ∈ disallowedModules)) && stdlib top)

/-! ## Source-scanner adapter (`_get_dependencies`) -/

/-- Insert a key into a Python dict used as an ordered set: a fresh key is
appended, an existing key keeps its position. -/
def insertKey (l : List String) (m : String) : List String :=
  if m ∈ l then l else l ++ [m]

/-- The body of the `_get_dependencies` loop for one scanned
`(dep_name, trailing_symbol?)` pair. -/
def processDepPair (env : Env) (deps : List String) :
    String × Option String → List String
  | (depName, some obj) =>
    let possible := depName ++ "." ++ obj
    if moduleExists env possible then insertKey deps possible
    else if moduleExists env depName then insertKey deps depName
    else deps
  | (depName, none) =>
    if moduleExists env depName then insertKey deps depName else deps

/-- `_get_dependencies`: scan `src` (with the enclosing package name) and
return the de-duplicated, order-preserving dependency list. -/
def getDependencies (env : Env) (src moduleName : String)
    (isPackage : Bool) : List String :=
  let packageName := if isPackage then moduleName else parentName moduleName
  (env.scanner src packageName).foldl (processDepPair env) []

/-! ## Policy-rule API (`intern` / `mock` / `extern` / `deny`) -/

namespace PackageExporter

/-- `intern(include, exclude=…, allow_empty=…)`: append an intern rule. -/
def intern (st : ExporterState) (includes excludes : List String)
    (allowEmpty : Bool) : ExporterState :=
  { st with patterns :=
      st.patterns ++ [⟨⟨includes, excludes⟩, Action.intern, allowEmpty⟩] }

/-- `mock(include, exclude=…, allow_empty=…)`: append a mock rule. -/
def mock (st : ExporterState) (includes excludes : List String)
    (allowEmpty : Bool) : ExporterState :=
  { st with patterns :=
      st.patterns ++ [⟨⟨includes, excludes⟩, Action.mock, allowEmpty⟩] }

/-- `extern(include, exclude=…, allow_empty=…)`: append an extern rule. -/
def externMod (st : ExporterState) (includes excludes : List String)
    (allowEmpty : Bool) : ExporterState :=
  { st with patterns :=
      st.patterns ++ [⟨⟨includes, excludes⟩, Action.externalize, allowEmpty⟩] }

/-- `deny(include, exclude=…)`: append a deny rule, always with
`allow_empty = true`. -/
def deny (st : ExporterState) (includes excludes : List String) :
    ExporterState :=
  { st with patterns :=
      st.patterns ++ [⟨⟨includes, excludes⟩, Action.deny, true⟩] }

/-- `_implicit_intern`: prepend an intern rule for exactly `module_name`
with `allow_empty = false`, so it matches before any other pattern. -/
def implicitIntern (st : ExporterState) (moduleName : String) :
    ExporterState :=
  { st with patterns :=
      ⟨globSingle moduleName, Action.intern, false⟩ :: st.patterns }

/-- `save_intern_module`. -/
def saveInternModule (st : ExporterState) (moduleName : String) :
    ExporterState :=
  { st with internModules := insertKey st.internModules moduleName }

/-- `save_extern_module`. -/
def saveExternModule (st : ExporterState) (moduleName : String) :
    ExporterState :=
  { st with externModules := insertKey st.externModules moduleName }

/-- `save_mock_module`. -/
def saveMockModule (st : ExporterState) (moduleName : String) :
    ExporterState :=
  { st with mockModules := insertKey st.mockModules moduleName }

/-- Run a matched rule's action callback (`_reject_denied_module` raises). -/
def runAction (st : ExporterState) : Action → String →
    Except PkgError ExporterState
  | Action.intern, m => Except.ok (saveInternModule st m)
  | Action.externalize, m => Except.ok (saveExternModule st m)
  | Action.mock, m => Except.ok (saveMockModule st m)
  | Action.deny, m => Except.error (PkgError.denied m)

/-- `self.matched_patterns.add(pattern)`. -/
def addMatched (st : ExporterState) (g : GlobGroup) : ExporterState :=
  { st with matched := if g ∈ st.matched then st.matched else st.matched ++ [g] }

/-! ## Archive writes -/

/-- Modelled from the spec: the reserved mangled-name sentinel (§6.3; the
spec fixes its existence, not its spelling). -/
def mangledSentinel : String := "<torch_package_"

/-- Modelled from the spec: `is_mangled` — names starting with the
mangled-prefix sentinel are rejected from all emission paths (§6.3). -/
def isMangled (s : String) : Bool :=
  mangledSentinel.data.isPrefixOf s.data

/-- `_write`: reject mangled paths, then hand the record to the archive
writer (modelled as appending to `records`). -/
def writeRecord (st : ExporterState) (filename contents : String) :
    ExporterState × Option PkgError :=
  if isMangled filename then (st, some (PkgError.invalidName filename))
  else ({ st with records := st.records ++ [(filename, contents)] }, none)

/-- `_write_source_string`: emit `src` for `module_name` at
`name-with-dots-as-slashes` + (`/__init__.py` if package else `.py`). -/
def writeSourceString (st : ExporterState) (moduleName src : String)
    (isPackage : Bool) : ExporterState × Option PkgError :=
  let extension := if isPackage then "/__init__.py" else ".py"
  writeRecord st (dotsToSlashes moduleName ++ extension) src

/-- `_filename`: the archive path of a resource inside a package. -/
def pkgFilename (env : Env) (package resource : String) : String :=
  dotsToSlashes package ++ "/" ++ env.normalizePath resource

/-! ## Dependency closure (`_save_module` and friends)

The Python recursion is reproduced with explicit fuel so that it is
structurally recursive on the fuel and therefore kernel-evaluable.  The fuel
is spent once per `_save_module` call. -/

/-- The shared dependency loop of `_save_module`, `save_source_string` and
`save_pickle`: for each dependency run `reqFn` (which stands for
`require_module_if_not_provided`) and then add the edge `parent → dep`. -/
def depLoop (reqFn : ExporterState → String → FuelResult ExporterState)
    (parent : String) : List String → ExporterState →
    FuelResult ExporterState
  | [], st => FuelResult.ok st
  | d :: rest, st =>
    match reqFn st d with
    | FuelResult.ok st2 => depLoop reqFn parent rest (addEdgeState st2 parent d)
    | r => r

/-- `_save_module`: import the module, fetch its source, add its node to the
graph, and (when `dependencies`) recurse into its scanned dependencies via
`require_module_if_not_provided` (whose guard is inlined here). -/
def saveModuleAux : Nat → Env → ExporterState → String → Bool →
    FuelResult ExporterState
  | 0, _, _, _, _ => FuelResult.out
  | fuel + 1, env, st, moduleName, dependencies =>
    match importModule env moduleName with
    | Except.error e => FuelResult.err e
    | Except.ok entry =>
      match getSourceOfModule entry moduleName with
      | Except.error e => FuelResult.err e
      | Except.ok source =>
        let st1 := { st with graph := addNodeBare st.graph moduleName }
        if dependencies then
          depLoop
            (fun stA d =>
              if containsNode stA.graph d ||
                  canImplicitlyExtern env.stdlib d then
                FuelResult.ok stA
              else saveModuleAux fuel env stA d true)
            moduleName
            (getDependencies env source moduleName entry.isPackage) st1
        else FuelResult.ok st1

/-- `require_module`: the default resolution hook, forwarding to
`_save_module`. -/
def requireModule (fuel : Nat) (env : Env) (st : ExporterState)
    (moduleName : String) (dependencies : Bool) : FuelResult ExporterState :=
  saveModuleAux fuel env st moduleName dependencies

/-- `require_module_if_not_provided`: return unchanged when the name is
already a graph node or is implicitly externable; otherwise save it. -/
def requireModuleIfNotProvided (fuel : Nat) (env : Env)
    (st : ExporterState) (moduleName : String) (dependencies : Bool) :
    FuelResult ExporterState :=
  if containsNode st.graph moduleName ||
      canImplicitlyExtern env.stdlib moduleName then
    FuelResult.ok st
  else requireModule fuel env st moduleName dependencies

/-- `save_source_string`: implicit-intern the name, add the node with the
user-provided source, and (when `dependencies`) enqueue the scanned
dependencies. -/
def saveSourceString (fuel : Nat) (env : Env) (st : ExporterState)
    (moduleName src : String) (isPackage dependencies : Bool) :
    FuelResult ExporterState :=
  let st1 := implicitIntern st moduleName
  let g2 := addNodeAttrs st1.graph moduleName ⟨some src, some isPackage, none⟩
  let st2 := { st1 with graph := g2 }
  if dependencies then
    depLoop (fun stA d => requireModuleIfNotProvided fuel env stA d true)
      moduleName (getDependencies env src moduleName isPackage) st2
  else FuelResult.ok st2

/-- `save_module`: implicit-intern the name then run `_save_module` (the
string type check cannot fail in this embedding). -/
def saveModule (fuel : Nat) (env : Env) (st : ExporterState)
    (moduleName : String) (dependencies : Bool) : FuelResult ExporterState :=
  saveModuleAux fuel env (implicitIntern st moduleName) moduleName
    dependencies

/-! ## Pickle dependency probe and `save_pickle` -/

/-- The `save_pickle` opcode loop: collect, for each `GLOBAL` opcode whose
argument unpacks as `"<module> <field>"`, the module part, de-duplicated and
order-preserving.  A `GLOBAL` argument that does not split into exactly two
parts makes the unpacking raise `ValueError`. -/
def probeDeps : List (String × String) → List String →
    Except PkgError (List String)
  | [], acc => Except.ok acc
  | (opName, arg) :: rest, acc =>
    if opName = "GLOBAL" then
      match splitChar ' ' arg with
      | [m, _] => probeDeps rest (if m ∈ acc then acc else acc ++ [m])
      | _ => Except.error (PkgError.valueError arg)
    else probeDeps rest acc

/-- `save_pickle`: serialize (the pickler is a collaborator, so the opcode
stream `dataOps` and payload `dataValue` are oracle inputs), intern and add
the pickle-key node `<package.resource>`, probe and enqueue dependencies,
then write the payload record. -/
def savePickle (fuel : Nat) (env : Env) (st : ExporterState)
    (package resource : String) (dataOps : List (String × String))
    (dataValue : String) (dependencies : Bool) : FuelResult ExporterState :=
  let filename := pkgFilename env package resource
  let pname := "<" ++ package ++ "." ++ resource ++ ">"
  let st1 := intern st [pname] [] true
  let g2 := addNodeAttrs st1.graph pname ⟨none, none, some true⟩
  let st2 := { st1 with graph := g2 }
  let afterDeps :=
    if dependencies then
      match probeDeps dataOps [] with
      | Except.error e => FuelResult.err e
      | Except.ok deps =>
        depLoop (fun stA d => requireModuleIfNotProvided fuel env stA d true)
          pname deps st2
    else FuelResult.ok st2
  match afterDeps with
  | FuelResult.ok st3 =>
    match writeRecord st3 filename dataValue with
    | (_, some e) => FuelResult.err e
    | (st4, none) => FuelResult.ok st4
  | r => r

/-! ## Sealing: classification -/

/-- The pattern-table branch of `do_match`: find the first rule whose
matcher accepts the name; fire its action and record the matcher.  When no
rule matches, the name stays unclassified. -/
def matchTable (st : ExporterState) (moduleName : String) :
    Except PkgError ExporterState :=
  match st.patterns.find? (fun r => r.pattern.matches moduleName) with
  | none => Except.ok st
  | some r =>
    match runAction st r.action moduleName with
    | Except.error e => Except.error e
    | Except.ok st2 => Except.ok (addMatched st2 r.pattern)

/-- `_match_patterns.do_match`: implicitly extern names whose root may be
implicitly externed, otherwise consult the pattern table. -/
def doMatch (stdlib : String → Bool) (st : ExporterState)
    (moduleName : String) : Except PkgError ExporterState :=
  let baseName := rootOf moduleName
  if canImplicitlyExtern stdlib baseName then
    Except.ok (saveExternModule st moduleName)
  else matchTable st moduleName

/-- The `for module_name in self.dependency_graph` loop of
`_match_patterns`. -/
def goMatch (stdlib : String → Bool) : ExporterState → List String →
    Except PkgError ExporterState
  | st, [] => Except.ok st
  | st, n :: rest =>
    match doMatch stdlib st n with
    | Except.error e => Except.error e
    | Except.ok st2 => goMatch stdlib st2 rest

/-- `_match_patterns`: classify every graph node in insertion order. -/
def matchPatterns (stdlib : String → Bool) (st : ExporterState) :
    Except PkgError ExporterState :=
  goMatch stdlib st (graphNames st)

/-- The graph nodes that landed in none of `intern_modules`,
`extern_modules`, `mock_modules`. -/
def unmatchedNodes (st : ExporterState) : List String :=
  (graphNames st).filter
    (fun n =>
      !(decide (n ∈ st.internModules) || decide (n ∈ st.externModules) ||
        decide (n ∈ st.mockModules)))

/-- The first rule with `allow_empty = false` whose matcher is absent from
`matched_patterns`, if any. -/
def emptyViolation (st : ExporterState) : Option Rule :=
  st.patterns.find?
    (fun r => !r.allowEmpty && !(decide (r.pattern ∈ st.matched)))

/-! ## Sealing: emission -/

/-- `_MOCK_IMPL`: the fixed redirection source written for each mocked
module. -/
def MOCK_IMPL : String :=
  "from _mock import MockedObject\ndef __getattr__(attr: str):\n    return MockedObject(__name__ + \x27.\x27 + attr, _suppress_err=True)\n"

/-- Emit the `_mock` stub module when any mock target exists. -/
def emitMockStub (env : Env) (st : ExporterState) :
    ExporterState × Option PkgError :=
  if st.mockModules.isEmpty then (st, none)
  else writeSourceString st "_mock" env.mockSrc false

/-- The per-target mock emission loop: import the real module (for its
`is_package` flag) and write the fixed redirection source. -/
def emitMocks (env : Env) : ExporterState → List String →
    ExporterState × Option PkgError
  | st, [] => (st, none)
  | st, m :: rest =>
    match importModule env m with
    | Except.error e => (st, some e)
    | Except.ok entry =>
      match writeSourceString st m MOCK_IMPL entry.isPackage with
      | (st2, some e) => (st2, some e)
      | (st2, none) => emitMocks env st2 rest

/-- One iteration of the interned-module emission loop: skip pickle-key
nodes, use user-provided source when present, otherwise import the module
and fetch its source. -/
def internStep (env : Env) (st : ExporterState) (moduleName : String) :
    ExporterState × Option PkgError :=
  match lookupNode st.graph moduleName with
  | none => (st, some (PkgError.keyError moduleName))
  | some attrs =>
    if attrs.isPickle = some true then (st, none)
    else
      match attrs.src with
      | some source =>
        match attrs.isPackage with
        | some isPkg => writeSourceString st moduleName source isPkg
        | none => (st, some (PkgError.keyError moduleName))
      | none =>
        match importModule env moduleName with
        | Except.error e => (st, some e)
        | Except.ok entry =>
          match getSourceOfModule entry moduleName with
          | Except.error e => (st, some e)
          | Except.ok source =>
            writeSourceString st moduleName source entry.isPackage

/-- The interned-module emission loop. -/
def emitInterns (env : Env) : ExporterState → List String →
    ExporterState × Option PkgError
  | st, [] => (st, none)
  | st, m :: rest =>
    match internStep env st m with
    | (st2, some e) => (st2, some e)
    | (st2, none) => emitInterns env st2 rest

/-- The emission tail of `_compute_patterns`: mock stub, mock targets,
interned sources, then the extern manifest. -/
def sealEmit (env : Env) (st : ExporterState) :
    ExporterState × Option PkgError :=
  match emitMockStub env st with
  | (st1, some e) => (st1, some e)
  | (st1, none) =>
    match emitMocks env st1 st1.mockModules with
    | (st2, some e) => (st2, some e)
    | (st2, none) =>
      match emitInterns env st2 st2.internModules with
      | (st3, some e) => (st3, some e)
      | (st3, none) =>
        writeRecord st3 ".data/extern_modules"
          (joinWith "\n" st3.externModules ++ "\n")

/-- `_compute_patterns`: classify every node, fault on unclassified nodes,
enforce `allow_empty`, then emit mock, intern and manifest records.  The
returned state reflects the records written before any fault. -/
def computePatterns (env : Env) (st : ExporterState) :
    ExporterState × Option PkgError :=
  match matchPatterns env.stdlib st with
  | Except.error e => (st, some e)
  | Except.ok st1 =>
    if unmatchedNodes st1 ≠ [] then
      (st1, some (PkgError.unclassified (unmatchedNodes st1)))
    else
      match emptyViolation st1 with
      | some r => (st1, some (PkgError.emptyMatch r.pattern))
      | none => sealEmit env st1

end PackageExporter

open PackageExporter

/-! ## Specification-side definitions used by theorem statements -/

/-- The importable module names still missing from the graph; its length
bounds the number of `_save_module` calls a closure can make. -/
def countMissing (env : Env) (st : ExporterState) : Nat :=
  ((env.modules.map Prod.fst).filter
    (fun n => !(containsNode st.graph n))).length

/-- Order-preserving first-occurrence de-duplication (tail-recursive core). -/
def dedupFirstAux : List String → List String → List String
  | acc, [] => acc
  | acc, m :: rest =>
    dedupFirstAux (if m ∈ acc then acc else acc ++ [m]) rest

/-- Order-preserving first-occurrence de-duplication. -/
def dedupFirst (l : List String) : List String :=
  dedupFirstAux [] l

/-- The module parts (text before the first space) of the `GLOBAL` opcode
arguments, in stream order; the lexical content the pickle probe is meant to
extract. -/
def globalArgModules (ops : List (String × String)) : List String :=
  ops.filterMap
    (fun pr => if pr.1 = "GLOBAL" then some (beforeFirstSpace pr.2) else none)

/-- A classification outcome: just the three disposition tables of a state
(used to compare classifications while ignoring bookkeeping fields). -/
def classificationOf (r : Except PkgError ExporterState) :
    Except PkgError (List String × List String × List String) :=
  r.map (fun st => (st.internModules, st.externModules, st.mockModules))

/-- A name sits in one of the three disposition tables. -/
def inDispositions (st : ExporterState) (m : String) : Prop :=
  m ∈ st.internModules ∨ m ∈ st.externModules ∨ m ∈ st.mockModules

/-! ## Concrete instances used by witnesses and counterexamples -/

/-- A stdlib oracle that recognises nothing. -/
def stdlibNone : String → Bool := fun _ => false

/-- An environment with an empty importer and empty scanner. -/
def envTrivial : Env :=
  ⟨[], fun _ _ => [], stdlibNone, fun s => s, ""⟩

/-- Two modules that import each other — a cyclic dependency closure. -/
def envCyc : Env :=
  { modules := [("a", ⟨some "import b", false⟩),
                ("b", ⟨some "import a", false⟩)]
    scanner := fun src _ =>
      if src = "import b" then [("b", none)]
      else if src = "import a" then [("a", none)]
      else []
    stdlib := stdlibNone
    normalizePath := fun s => s
    mockSrc := "" }

/-- An environment whose scanner reports the pair `("pack", some "sub")`
while the importer resolves nothing. -/
def envScanPair : Env :=
  { modules := []
    scanner := fun _ _ => [("pack", some "sub")]
    stdlib := stdlibNone
    normalizePath := fun s => s
    mockSrc := "" }

/-- An importer that resolves `pack.sub` but not `pack`. -/
def envWithSub : Env :=
  { modules := [("pack.sub", ⟨some "", false⟩)]
    scanner := fun _ _ => []
    stdlib := stdlibNone
    normalizePath := fun s => s
    mockSrc := "" }

/-- Witness state for sealing: node `a` with user source, matched by an
intern rule. -/
def stC1 : ExporterState :=
  { internModules := [], externModules := [], mockModules := []
    graph := [("a", ⟨some "x = 1\n", some false, none⟩)]
    edges := [], patterns := [⟨⟨["a"], []⟩, Action.intern, true⟩]
    matched := [], records := [] }

/-- Witness state for first-match: a non-matching mock rule before a
matching intern rule. -/
def stC3 : ExporterState :=
  { internModules := [], externModules := [], mockModules := []
    graph := [], edges := []
    patterns := [⟨⟨["b"], []⟩, Action.mock, true⟩,
                 ⟨⟨["a"], []⟩, Action.intern, true⟩]
    matched := [], records := [] }

/-- Witness state for empty-match enforcement: one `allow_empty = false`
extern rule that nothing matches. -/
def stC4 : ExporterState :=
  { internModules := [], externModules := [], mockModules := []
    graph := [], edges := []
    patterns := [⟨⟨["never.*"], []⟩, Action.externalize, false⟩]
    matched := [], records := [] }

/-- The state produced by `mock("**")` followed by
`save_pickle("p", "r", …, dependencies=False)` on a fresh exporter. -/
def stC8 : ExporterState :=
  { internModules := [], externModules := [], mockModules := []
    graph := [("<p.r>", ⟨none, none, some true⟩)]
    edges := []
    patterns := [⟨⟨["**"], []⟩, Action.mock, true⟩,
                 ⟨⟨["<p.r>"], []⟩, Action.intern, true⟩]
    matched := [], records := [("p/r", "DATA")] }

/-- The classification of `stC8`: the pickle-key node lands in the mock
table because the earlier `**` rule fires first. -/
def stC8m : ExporterState :=
  { stC8 with mockModules := ["<p.r>"], matched := [⟨["**"], []⟩] }

/-- The state produced by `save_pickle("p", "r", …, dependencies=False)` on
a fresh exporter with no user rules. -/
def stC8i : ExporterState :=
  { internModules := [], externModules := [], mockModules := []
    graph := [("<p.r>", ⟨none, none, some true⟩)]
    edges := []
    patterns := [⟨⟨["<p.r>"], []⟩, Action.intern, true⟩]
    matched := [], records := [("p/r", "DATA")] }

/-- The state produced by
`save_source_string("torch", "x = 1", dependencies=False)` on a fresh
exporter. -/
def stC10 : ExporterState :=
  { internModules := [], externModules := [], mockModules := []
    graph := [("torch", ⟨some "x = 1", some false, none⟩)]
    edges := [], patterns := [⟨⟨["torch"], []⟩, Action.intern, false⟩]
    matched := [], records := [] }

/-- The state reached by `save_source_string(name, src, is_package,
dependencies=False)` on a fresh exporter. -/
def afterSaveSourceOnly (name src : String) (isPkg : Bool) :
    ExporterState :=
  { internModules := [], externModules := [], mockModules := []
    graph := [(name, ⟨some src, some isPkg, none⟩)]
    edges := []
    patterns := [⟨globSingle name, Action.intern, false⟩]
    matched := [], records := [] }

/-- `afterSaveSourceOnly` after classification implicitly externs `name`. -/
def afterSaveSourceExt (name src : String) (isPkg : Bool) :
    ExporterState :=
  { afterSaveSourceOnly name src isPkg with externModules := [name] }

/-- A small opcode stream with three `GLOBAL` opcodes, one duplicated. -/
def opsC7 : List (String × String) :=
  [("PROTO", "2"), ("GLOBAL", "collections OrderedDict"),
   ("GLOBAL", "torch Tensor"), ("GLOBAL", "collections OrderedDict"),
   ("STOP", "")]

/-! ## Basic lemmas: strings, globs, ordered sets -/

theorem not_mem_takeUntilChar (c : Char) (l : List Char) :
    c ∉ takeUntilChar c l := by
  induction l with
  | nil => simp [takeUntilChar]
  | cons a rest ih =>
    by_cases h : a = c <;> simp [takeUntilChar, h, ih]
    exact fun hc => h hc.symm

theorem takeUntilChar_of_not_mem (c : Char) (l : List Char) (h : c ∉ l) :
    takeUntilChar c l = l := by
  induction l with
  | nil => rfl
  | cons a rest ih =>
    simp only [List.mem_cons, not_or] at h
    have hne : ¬(a = c) := fun he => h.1 he.symm
    simp [takeUntilChar, hne, ih h.2]

theorem rootOf_rootOf (s : String) : rootOf (rootOf s) = rootOf s := by
  show (⟨takeUntilChar '.' (takeUntilChar '.' s.data)⟩ : String) = _
  rw [takeUntilChar_of_not_mem _ _ (not_mem_takeUntilChar _ _)]
  rfl

theorem segsMatchF_self (l : List String) (h : "**" ∉ l) :
    ∀ f, l.length ≤ f → segsMatchF f l l = true := by
  induction l with
  | nil => intro f _; cases f <;> simp [segsMatchF]
  | cons p ps ih =>
    intro f hf
    simp only [List.mem_cons, not_or] at h
    cases f with
    | zero => simp at hf
    | succ f =>
      have hne : ¬(p = "**") := fun he => h.1 he.symm
      simp only [segsMatchF, if_neg hne, Bool.and_eq_true, Bool.or_eq_true,
        decide_eq_true_eq]
      exact ⟨by simp, ih h.2 f (Nat.le_of_succ_le_succ hf)⟩

theorem segsMatch_self (l : List String) (h : "**" ∉ l) :
    segsMatch l l = true :=
  segsMatchF_self l h _ (by omega)

theorem globSingle_matches_self (name : String)
    (h : "**" ∉ splitChar '.' name) :
    (globSingle name).matches name = true := by
  simp [globSingle, GlobGroup.matches, globMatchStr, segsMatch_self _ h]

theorem mem_insertKey (l : List String) (n m : String) :
    m ∈ insertKey l n ↔ m ∈ l ∨ m = n := by
  by_cases h : n ∈ l
  · simp only [insertKey, if_pos h]
    constructor
    · exact Or.inl
    · rintro (hm | rfl) <;> assumption
  · simp [insertKey, if_neg h]

theorem self_mem_insertKey (l : List String) (n : String) :
    n ∈ insertKey l n :=
  (mem_insertKey l n n).2 (Or.inr rfl)

theorem find?_append_of_none {α : Type} (p : α → Bool) (l1 l2 : List α)
    (h : ∀ x ∈ l1, p x = false) :
    List.find? p (l1 ++ l2) = List.find? p l2 := by
  induction l1 with
  | nil => rfl
  | cons a rest ih =>
    have ha := h a (List.mem_cons_self a rest)
    simp only [List.cons_append, List.find?, ha]
    exact ih (fun x hx => h x (List.mem_cons_of_mem a hx))

theorem length_filter_le_of_imp {α : Type} (p q : α → Bool) :
    ∀ l : List α, (∀ a ∈ l, p a = true → q a = true) →
      (l.filter p).length ≤ (l.filter q).length := by
  intro l
  induction l with
  | nil => intro _; simp
  | cons a rest ih =>
    intro h
    have hr := ih (fun x hx => h x (List.mem_cons_of_mem a hx))
    by_cases hp : p a = true
    · have hq := h a (List.mem_cons_self a rest) hp
      simp only [List.filter_cons, hp, hq, if_true, List.length_cons]
      omega
    · have hp' : p a = false := by revert hp; cases p a <;> simp
      by_cases hq : q a = true
      · simp only [List.filter_cons, hp', hq, Bool.false_eq_true, if_false,
          if_true, List.length_cons]
        omega
      · have hq' : q a = false := by revert hq; cases q a <;> simp
        simpa only [List.filter_cons, hp', hq', Bool.false_eq_true, if_false]
          using hr

theorem length_filter_lt_of_witness {α : Type} (p q : α → Bool) (a0 : α)
    (hq0 : q a0 = true) (hp0 : p a0 = false) :
    ∀ l : List α, (∀ a ∈ l, p a = true → q a = true) → a0 ∈ l →
      (l.filter p).length < (l.filter q).length := by
  intro l
  induction l with
  | nil => intro _ ha0; simp at ha0
  | cons a rest ih =>
    intro h ha0
    rcases List.mem_cons.1 ha0 with rfl | hmem
    · have hle := length_filter_le_of_imp p q rest
        (fun x hx => h x (List.mem_cons_of_mem _ hx))
      simp only [List.filter_cons, hp0, hq0, Bool.false_eq_true, if_false,
        if_true, List.length_cons]
      omega
    · have hr := ih (fun x hx => h x (List.mem_cons_of_mem _ hx)) hmem
      by_cases hp : p a = true
      · have hq := h a (List.mem_cons_self a rest) hp
        simp only [List.filter_cons, hp, hq, if_true, List.length_cons]
        omega
      · have hp' : p a = false := by revert hp; cases p a <;> simp
        by_cases hq : q a = true
        · simp only [List.filter_cons, hp', hq, Bool.false_eq_true, if_false,
            if_true, List.length_cons]
          omega
        · have hq' : q a = false := by revert hq; cases q a <;> simp
          simpa only [List.filter_cons, hp', hq', Bool.false_eq_true,
            if_false] using hr

/-! ## Graph lemmas -/

theorem lookupNode_addNodeAttrs_self (g : List (String × NodeAttrs))
    (n : String) (a : NodeAttrs) :
    lookupNode (addNodeAttrs g n a) n =
      some (match lookupNode g n with
            | none => a
            | some old => mergeAttrs old a) := by
  induction g with
  | nil => simp [addNodeAttrs, lookupNode]
  | cons kv rest ih =>
    obtain ⟨k, old⟩ := kv
    by_cases hk : k = n
    · subst hk
      simp [addNodeAttrs, lookupNode]
    · simp [addNodeAttrs, lookupNode, hk, ih]

theorem lookupNode_addNodeAttrs_other (g : List (String × NodeAttrs))
    (n m : String) (a : NodeAttrs) (h : n ≠ m) :
    lookupNode (addNodeAttrs g n a) m = lookupNode g m := by
  induction g with
  | nil => simp [addNodeAttrs, lookupNode, h]
  | cons kv rest ih =>
    obtain ⟨k, old⟩ := kv
    by_cases hk : k = n
    · subst hk
      simp [addNodeAttrs, lookupNode, h]
    · simp only [addNodeAttrs, if_neg hk]
      by_cases hm : k = m
      · subst hm; simp [lookupNode]
      · simp [lookupNode, hm, ih]

theorem containsNode_addNodeAttrs_self (g : List (String × NodeAttrs))
    (n : String) (a : NodeAttrs) :
    containsNode (addNodeAttrs g n a) n = true := by
  simp [containsNode, lookupNode_addNodeAttrs_self]

theorem containsNode_addNodeAttrs_mono (g : List (String × NodeAttrs))
    (n m : String) (a : NodeAttrs)
    (h : containsNode g m = true) :
    containsNode (addNodeAttrs g n a) m = true := by
  by_cases hnm : n = m
  · subst hnm; exact containsNode_addNodeAttrs_self g n a
  · rw [containsNode, lookupNode_addNodeAttrs_other g n m a hnm]
    exact h

theorem containsNode_addEdgeState (st : ExporterState) (u v m : String)
    (h : containsNode st.graph m = true) :
    containsNode (addEdgeState st u v).graph m = true := by
  exact containsNode_addNodeAttrs_mono _ _ _ _
    (containsNode_addNodeAttrs_mono _ _ _ _ h)

/-! ## Classification lemmas: frames, membership, disjointness -/

theorem runAction_frame (st : ExporterState) (a : Action) (m : String)
    (st2 : ExporterState) (h : runAction st a m = Except.ok st2) :
    st2.graph = st.graph ∧ st2.patterns = st.patterns ∧
      st2.records = st.records ∧ st2.edges = st.edges ∧
      st2.matched = st.matched := by
  cases a <;> simp [runAction, PackageExporter.saveInternModule,
    PackageExporter.saveExternModule, PackageExporter.saveMockModule] at h <;>
    subst h <;> simp

theorem doMatch_frame (stdlib : String → Bool) (st : ExporterState)
    (n : String) (st2 : ExporterState)
    (h : doMatch stdlib st n = Except.ok st2) :
    st2.graph = st.graph ∧ st2.patterns = st.patterns ∧
      st2.records = st.records ∧ st2.edges = st.edges := by
  rw [doMatch] at h
  by_cases hext : canImplicitlyExtern stdlib (rootOf n) = true
  · rw [if_pos hext] at h
    cases h
    simp [PackageExporter.saveExternModule]
  · rw [if_neg hext] at h
    rw [matchTable] at h
    split at h
    · cases h; simp
    · rename_i r hf
      split at h
      · cases h
      · rename_i st3 hr
        cases h
        have hfr := runAction_frame st r.action n st3 hr
        simp only [addMatched]
        exact ⟨hfr.1, hfr.2.1, hfr.2.2.1, hfr.2.2.2.1⟩

theorem goMatch_frame (stdlib : String → Bool) :
    ∀ (names : List String) (st st2 : ExporterState),
      goMatch stdlib st names = Except.ok st2 →
      st2.graph = st.graph ∧ st2.patterns = st.patterns ∧
        st2.records = st.records ∧ st2.edges = st.edges := by
  intro names
  induction names with
  | nil =>
    intro st st2 h
    cases h
    exact ⟨rfl, rfl, rfl, rfl⟩
  | cons n rest ih =>
    intro st st2 h
    rw [goMatch] at h
    rcases hd : doMatch stdlib st n with e | st1
    · rw [hd] at h; cases h
    · rw [hd] at h
      have h1 := doMatch_frame stdlib st n st1 hd
      have h2 := ih st1 st2 h
      exact ⟨h2.1.trans h1.1, h2.2.1.trans h1.2.1,
        h2.2.2.1.trans h1.2.2.1, h2.2.2.2.trans h1.2.2.2⟩

/-! ## Claim C2: the implicit-extern decision -/

/-- C2: classification implicitly externs a qualified name, short-circuiting
the pattern table, iff its root is `torch`, or the root is recognised by the
stdlib oracle and is not on the fixed disallowed list `{"sys", "io"}`; a
name whose root is on the disallowed list and is not `torch` falls through
to the ordered pattern table. -/
theorem c2_implicit_extern_condition (stdlib : String → Bool)
    (st : ExporterState) (name : String) :
    (canImplicitlyExtern stdlib (rootOf name) = true ↔
      (rootOf name = "torch" ∨
        (stdlib (rootOf name) = true ∧ rootOf name ∉ disallowedModules))) ∧
    (canImplicitlyExtern stdlib (rootOf name) = true →
      doMatch stdlib st name = Except.ok (saveExternModule st name)) ∧
    (canImplicitlyExtern stdlib (rootOf name) = false →
      doMatch stdlib st name = matchTable st name) ∧
    (rootOf name ∈ disallowedModules → rootOf name ≠ "torch" →
      doMatch stdlib st name = matchTable st name) := by
  have hr := rootOf_rootOf name
  refine ⟨?_, ?_, ?_, ?_⟩
  · unfold canImplicitlyExtern
    rw [hr]
    simp only [Bool.or_eq_true, Bool.and_eq_true, Bool.not_eq_true',
      decide_eq_true_eq, decide_eq_false_iff_not]
    tauto
  · intro h
    unfold doMatch
    rw [if_pos h]
  · intro h
    simp [doMatch, h]
  · intro hmem hne
    have hfalse : canImplicitlyExtern stdlib (rootOf name) = false := by
      unfold canImplicitlyExtern
      rw [hr]
      simp [hmem, hne]
    simp [doMatch, hfalse]

/-- Witness for C2 at the name `sys.path` (root on the disallowed list):
classification consults the pattern table. -/
theorem c2_witness :
    doMatch (fun s => s == "collections") initialState "sys.path" =
      matchTable initialState "sys.path" :=
  (c2_implicit_extern_condition (fun s => s == "collections") initialState
    "sys.path").2.2.2 (by decide) (by decide)

/-! ## Claim C9: submodule disambiguation in `_get_dependencies` -/

/-- C9 counterexample: the scanner reports the pair `("pack", some "sub")`,
`pack.sub` does not resolve via the importer, and — contrary to the claim
that "otherwise the recorded dependency is pkg alone" — `pack` is not
recorded either, because `pack` itself does not resolve: the dependency
list is empty. -/
theorem c9_counterexample :
    getDependencies envScanPair "from pack import sub" "m" false = [] ∧
      "pack" ∉ getDependencies envScanPair "from pack import sub" "m" false
      := by
  constructor
  · rfl
  · intro h
    simp only [getDependencies] at h
    revert h
    decide

/-- C9 (amended): for a scanned pair `(pkg, some sub)`: if `pkg.sub`
resolves via the importer, exactly `pkg.sub` is recorded and the parent
`pkg` is not; otherwise, if `pkg` itself resolves, `pkg` alone is recorded;
if neither resolves, nothing is recorded for the pair. -/
theorem c9_submodule_disambiguation (env : Env) (deps : List String)
    (pkg sub : String) :
    (moduleExists env (pkg ++ "." ++ sub) = true →
      processDepPair env deps (pkg, some sub) =
        insertKey deps (pkg ++ "." ++ sub)) ∧
    (moduleExists env (pkg ++ "." ++ sub) = false →
      moduleExists env pkg = true →
      processDepPair env deps (pkg, some sub) = insertKey deps pkg) ∧
    (moduleExists env (pkg ++ "." ++ sub) = false →
      moduleExists env pkg = false →
      processDepPair env deps (pkg, some sub) = deps) := by
  refine ⟨?_, ?_, ?_⟩
  · intro h
    simp [processDepPair, h]
  · intro h1 h2
    simp [processDepPair, h1, h2]
  · intro h1 h2
    simp [processDepPair, h1, h2]

/-- Witness for C9: with an importer that resolves `pack.sub` but not
`pack`, the pair `("pack", some "sub")` records exactly `pack.sub`. -/
theorem c9_witness :
    processDepPair envWithSub [] ("pack", some "sub") = ["pack.sub"] :=
  ((c9_submodule_disambiguation envWithSub [] "pack" "sub").1
    (by decide)).trans (by decide)

/-! ## Claim C7: the pickle dependency probe -/

theorem splitCharList_cons_ex (c : Char) (l : List Char) :
    ∃ t ts, splitCharList c l = t :: ts ∧ t = takeUntilChar c l := by
  induction l with
  | nil => exact ⟨[], [], rfl, rfl⟩
  | cons a rest ih =>
    by_cases h : a = c
    · refine ⟨[], splitCharList c rest, ?_, ?_⟩ <;>
        simp [splitCharList, takeUntilChar, h]
    · obtain ⟨t, ts, hsplit, ht⟩ := ih
      refine ⟨a :: t, ts, ?_, ?_⟩
      · simp [splitCharList, h, hsplit]
      · simp [takeUntilChar, h, ht]

theorem splitChar_head (c : Char) (s : String) (m : String)
    (rest : List String) (h : splitChar c s = m :: rest) :
    m = ⟨takeUntilChar c s.data⟩ := by
  obtain ⟨t, ts, hsplit, ht⟩ := splitCharList_cons_ex c s.data
  rw [splitChar, hsplit] at h
  simp only [List.map_cons, List.cons.injEq] at h
  rw [← h.1, ht]

theorem mem_dedupFirstAux (l : List String) :
    ∀ (acc : List String) (m : String),
      m ∈ dedupFirstAux acc l ↔ m ∈ acc ∨ m ∈ l := by
  induction l with
  | nil => intro acc m; simp [dedupFirstAux]
  | cons a rest ih =>
    intro acc m
    show m ∈ dedupFirstAux (insertKey acc a) rest ↔ _
    rw [ih (insertKey acc a) m, mem_insertKey]
    simp only [List.mem_cons]
    tauto

theorem nodup_dedupFirstAux (l : List String) :
    ∀ acc : List String, acc.Nodup → (dedupFirstAux acc l).Nodup := by
  induction l with
  | nil => intro acc h; exact h
  | cons a rest ih =>
    intro acc h
    show (dedupFirstAux (insertKey acc a) rest).Nodup
    refine ih (insertKey acc a) ?_
    by_cases ha : a ∈ acc
    · simpa [insertKey, ha] using h
    · simp [insertKey, ha, List.nodup_append, h]

/-- The probe, run from any accumulator, returns the first-occurrence
de-duplication of the before-first-space parts of the `GLOBAL` arguments
(provided every `GLOBAL` argument splits into exactly two parts). -/
theorem probeDeps_spec (ops : List (String × String)) :
    ∀ acc : List String,
      (∀ pr ∈ ops, pr.1 = "GLOBAL" → (splitChar ' ' pr.2).length = 2) →
      probeDeps ops acc =
        Except.ok (dedupFirstAux acc (globalArgModules ops)) := by
  induction ops with
  | nil => intro acc _; rfl
  | cons pr rest ih =>
    intro acc hwf
    obtain ⟨opName, arg⟩ := pr
    have hrest : ∀ pr ∈ rest, pr.1 = "GLOBAL" →
        (splitChar ' ' pr.2).length = 2 :=
      fun q hq => hwf q (List.mem_cons_of_mem _ hq)
    by_cases hop : opName = "GLOBAL"
    · have hlen := hwf (opName, arg) (List.mem_cons_self _ _) hop
      rcases hsp : splitChar ' ' arg with _ | ⟨m, tail⟩
      · rw [hsp] at hlen; simp at hlen
      · rcases tail with _ | ⟨f, tail2⟩
        · rw [hsp] at hlen; simp at hlen
        · rcases tail2 with _ | _
          · have hm : m = beforeFirstSpace arg := splitChar_head _ _ _ _ hsp
            show probeDeps ((opName, arg) :: rest) acc = _
            rw [probeDeps, if_pos hop, hsp]
            show probeDeps rest (if m ∈ acc then acc else acc ++ [m]) = _
            rw [ih (if m ∈ acc then acc else acc ++ [m]) hrest]
            simp only [globalArgModules, List.filterMap_cons, hop, if_pos rfl]
            rw [← hm]
            rfl
          · rw [hsp] at hlen; simp at hlen
    · show probeDeps ((opName, arg) :: rest) acc = _
      rw [probeDeps, if_neg hop, ih acc hrest]
      simp only [globalArgModules, List.filterMap_cons, hop, if_neg hop]
      rfl

/-- C7: for every serialized byte stream whose `GLOBAL` arguments have the
form `"<module> <qualified_symbol>"`, the probe collects the substring
before the first space of each `GLOBAL` argument, preserving
first-occurrence order, without duplicates, computed purely lexically from
the opcode stream (the probe is a pure function of the `(opcode, arg)`
pairs and executes nothing). -/
theorem c7_pickle_probe (ops : List (String × String))
    (hwf : ∀ pr ∈ ops, pr.1 = "GLOBAL" →
      (splitChar ' ' pr.2).length = 2) :
    probeDeps ops [] = Except.ok (dedupFirst (globalArgModules ops)) ∧
    ∀ l, probeDeps ops [] = Except.ok l →
      l.Nodup ∧ ∀ m, m ∈ l ↔ m ∈ globalArgModules ops := by
  have hspec := probeDeps_spec ops [] hwf
  refine ⟨hspec, ?_⟩
  intro l hl
  rw [hspec] at hl
  cases hl
  constructor
  · exact nodup_dedupFirstAux _ [] List.nodup_nil
  · intro m
    rw [mem_dedupFirstAux]
    simp

/-- Witness for C7 on a concrete opcode stream: the two distinct `GLOBAL`
modules are collected once each, in order. -/
theorem c7_witness :
    probeDeps opsC7 [] = Except.ok ["collections", "torch"] ∧
      ["collections", "torch"] = dedupFirst (globalArgModules opsC7) :=
  ⟨((c7_pickle_probe opsC7 (by decide)).1).trans (by rfl), by rfl⟩

/-! ## Emission-stage lemmas -/

theorem writeRecord_lists (st : ExporterState) (f c : String) :
    (writeRecord st f c).1.internModules = st.internModules ∧
    (writeRecord st f c).1.externModules = st.externModules ∧
    (writeRecord st f c).1.mockModules = st.mockModules := by
  unfold writeRecord
  split <;> exact ⟨rfl, rfl, rfl⟩

theorem writeRecord_err (st : ExporterState) (f c : String) :
    ∀ e, (writeRecord st f c).2 = some e → e = PkgError.invalidName f := by
  unfold writeRecord
  split
  · intro e h
    cases h
    rfl
  · intro e h
    cases h

theorem writeSourceString_lists (st : ExporterState) (n src : String)
    (p : Bool) :
    (writeSourceString st n src p).1.internModules = st.internModules ∧
    (writeSourceString st n src p).1.externModules = st.externModules ∧
    (writeSourceString st n src p).1.mockModules = st.mockModules := by
  unfold writeSourceString
  exact writeRecord_lists st _ src

theorem writeSourceString_err (st : ExporterState) (n src : String)
    (p : Bool) :
    ∀ e, (writeSourceString st n src p).2 = some e →
      ∃ f, e = PkgError.invalidName f := by
  unfold writeSourceString
  intro e h
  exact ⟨_, writeRecord_err st _ src e h⟩

theorem importModule_err (env : Env) (m : String) :
    ∀ e, importModule env m = Except.error e →
      e = PkgError.moduleNotFound m := by
  unfold importModule
  split
  · intro e h
    cases h
  · intro e h
    cases h
    rfl

theorem getSourceOfModule_err (entry : ModEntry) (m : String) :
    ∀ e, getSourceOfModule entry m = Except.error e →
      e = PkgError.sourceUnavailable m := by
  unfold getSourceOfModule
  split
  · intro e h
    cases h
  · intro e h
    cases h
    rfl

theorem emitMocks_lists (env : Env) :
    ∀ (l : List String) (st : ExporterState),
      (emitMocks env st l).1.internModules = st.internModules ∧
      (emitMocks env st l).1.externModules = st.externModules ∧
      (emitMocks env st l).1.mockModules = st.mockModules := by
  intro l
  induction l with
  | nil => intro st; exact ⟨rfl, rfl, rfl⟩
  | cons m rest ih =>
    intro st
    rcases him : importModule env m with e | entry
    · simp [emitMocks, him]
    · rcases hw : writeSourceString st m MOCK_IMPL entry.isPackage
        with ⟨st2, opt⟩
      have hwl := writeSourceString_lists st m MOCK_IMPL entry.isPackage
      rw [hw] at hwl
      rcases opt with _ | e
      · have hrec := ih st2
        simp only [emitMocks, him, hw]
        exact ⟨hrec.1.trans hwl.1, hrec.2.1.trans hwl.2.1,
          hrec.2.2.trans hwl.2.2⟩
      · simp only [emitMocks, him, hw]
        exact hwl

theorem emitMocks_err (env : Env) :
    ∀ (l : List String) (st : ExporterState) (g : GlobGroup),
      (emitMocks env st l).2 ≠ some (PkgError.emptyMatch g) := by
  intro l
  induction l with
  | nil => intro st g h; cases h
  | cons m rest ih =>
    intro st g
    rcases him : importModule env m with e | entry
    · simp only [emitMocks, him]
      intro h
      cases h
      have := importModule_err env m _ him
      cases this
    · rcases hw : writeSourceString st m MOCK_IMPL entry.isPackage
        with ⟨st2, opt⟩
      rcases opt with _ | e
      · simp only [emitMocks, him, hw]
        exact ih st2 g
      · simp only [emitMocks, him, hw]
        intro h
        cases h
        have hw2 : (writeSourceString st m MOCK_IMPL entry.isPackage).2 =
            some (PkgError.emptyMatch g) := by rw [hw]
        obtain ⟨f, hf⟩ :=
          writeSourceString_err st m MOCK_IMPL entry.isPackage _ hw2
        cases hf

theorem internStep_lists (env : Env) (st : ExporterState) (m : String) :
    (internStep env st m).1.internModules = st.internModules ∧
    (internStep env st m).1.externModules = st.externModules ∧
    (internStep env st m).1.mockModules = st.mockModules := by
  unfold internStep
  split
  · exact ⟨rfl, rfl, rfl⟩
  · split
    · exact ⟨rfl, rfl, rfl⟩
    · split
      · split
        · exact writeSourceString_lists st _ _ _
        · exact ⟨rfl, rfl, rfl⟩
      · split
        · exact ⟨rfl, rfl, rfl⟩
        · split
          · exact ⟨rfl, rfl, rfl⟩
          · exact writeSourceString_lists st _ _ _

theorem internStep_err (env : Env) (st : ExporterState) (m : String)
    (g : GlobGroup) :
    (internStep env st m).2 ≠ some (PkgError.emptyMatch g) := by
  unfold internStep
  split
  · intro h; cases h
  · split
    · intro h; cases h
    · split
      · split
        · intro h
          obtain ⟨f, hf⟩ := writeSourceString_err st _ _ _ _ h
          cases hf
        · intro h; cases h
      · split
        · rename_i e him
          intro h
          cases h
          have := importModule_err env m _ him
          cases this
        · split
          · rename_i e hsrc
            intro h
            cases h
            have := getSourceOfModule_err _ m _ hsrc
            cases this
          · intro h
            obtain ⟨f, hf⟩ := writeSourceString_err st _ _ _ _ h
            cases hf

theorem emitInterns_lists (env : Env) :
    ∀ (l : List String) (st : ExporterState),
      (emitInterns env st l).1.internModules = st.internModules ∧
      (emitInterns env st l).1.externModules = st.externModules ∧
      (emitInterns env st l).1.mockModules = st.mockModules := by
  intro l
  induction l with
  | nil => intro st; exact ⟨rfl, rfl, rfl⟩
  | cons m rest ih =>
    intro st
    rcases hs : internStep env st m with ⟨st2, opt⟩
    have hsl := internStep_lists env st m
    rw [hs] at hsl
    rcases opt with _ | e
    · have hrec := ih st2
      simp only [emitInterns, hs]
      exact ⟨hrec.1.trans hsl.1, hrec.2.1.trans hsl.2.1,
        hrec.2.2.trans hsl.2.2⟩
    · simp only [emitInterns, hs]
      exact hsl

theorem emitInterns_err (env : Env) :
    ∀ (l : List String) (st : ExporterState) (g : GlobGroup),
      (emitInterns env st l).2 ≠ some (PkgError.emptyMatch g) := by
  intro l
  induction l with
  | nil => intro st g h; cases h
  | cons m rest ih =>
    intro st g
    rcases hs : internStep env st m with ⟨st2, opt⟩
    rcases opt with _ | e
    · simp only [emitInterns, hs]
      exact ih st2 g
    · simp only [emitInterns, hs]
      intro h
      cases h
      have := internStep_err env st m g
      rw [hs] at this
      exact this rfl

theorem emitMockStub_lists (env : Env) (st : ExporterState) :
    (emitMockStub env st).1.internModules = st.internModules ∧
    (emitMockStub env st).1.externModules = st.externModules ∧
    (emitMockStub env st).1.mockModules = st.mockModules := by
  unfold emitMockStub
  split
  · exact ⟨rfl, rfl, rfl⟩
  · exact writeSourceString_lists st _ _ _

theorem emitMockStub_err (env : Env) (st : ExporterState) (g : GlobGroup) :
    (emitMockStub env st).2 ≠ some (PkgError.emptyMatch g) := by
  unfold emitMockStub
  split
  · intro h; cases h
  · intro h
    obtain ⟨f, hf⟩ := writeSourceString_err st _ _ _ _ h
    cases hf

theorem sealEmit_lists (env : Env) (st : ExporterState) :
    (sealEmit env st).1.internModules = st.internModules ∧
    (sealEmit env st).1.externModules = st.externModules ∧
    (sealEmit env st).1.mockModules = st.mockModules := by
  unfold sealEmit
  rcases h1 : emitMockStub env st with ⟨st1, opt1⟩
  have hl1 := emitMockStub_lists env st
  rw [h1] at hl1
  rcases opt1 with _ | e1
  · rcases h2 : emitMocks env st1 st1.mockModules with ⟨st2, opt2⟩
    have hl2 := emitMocks_lists env st1.mockModules st1
    rw [h2] at hl2
    rcases opt2 with _ | e2
    · rcases h3 : emitInterns env st2 st2.internModules with ⟨st3, opt3⟩
      have hl3 := emitInterns_lists env st2.internModules st2
      rw [h3] at hl3
      rcases opt3 with _ | e3
      · have hl4 := writeRecord_lists st3 ".data/extern_modules"
          (joinWith "\n" st3.externModules ++ "\n")
        simp only [h1, h2, h3]
        exact ⟨hl4.1.trans (hl3.1.trans (hl2.1.trans hl1.1)),
          hl4.2.1.trans (hl3.2.1.trans (hl2.2.1.trans hl1.2.1)),
          hl4.2.2.trans (hl3.2.2.trans (hl2.2.2.trans hl1.2.2))⟩
      · simp only [h1, h2, h3]
        exact ⟨hl3.1.trans (hl2.1.trans hl1.1),
          hl3.2.1.trans (hl2.2.1.trans hl1.2.1),
          hl3.2.2.trans (hl2.2.2.trans hl1.2.2)⟩
    · simp only [h1, h2]
      exact ⟨hl2.1.trans hl1.1, hl2.2.1.trans hl1.2.1,
        hl2.2.2.trans hl1.2.2⟩
  · simp only [h1]
    exact hl1

theorem sealEmit_err (env : Env) (st : ExporterState) (g : GlobGroup) :
    (sealEmit env st).2 ≠ some (PkgError.emptyMatch g) := by
  unfold sealEmit
  rcases h1 : emitMockStub env st with ⟨st1, opt1⟩
  rcases opt1 with _ | e1
  · rcases h2 : emitMocks env st1 st1.mockModules with ⟨st2, opt2⟩
    rcases opt2 with _ | e2
    · rcases h3 : emitInterns env st2 st2.internModules with ⟨st3, opt3⟩
      rcases opt3 with _ | e3
      · simp only [h1, h2, h3]
        intro h
        have := writeRecord_err st3 ".data/extern_modules"
          (joinWith "\n" st3.externModules ++ "\n") _ h
        cases this
      · simp only [h1, h2, h3]
        intro h
        cases h
        have := emitInterns_err env st2.internModules st2 g
        rw [h3] at this
        exact this rfl
    · simp only [h1, h2]
      intro h
      cases h
      have := emitMocks_err env st1.mockModules st1 g
      rw [h2] at this
      exact this rfl
  · simp only [h1]
    intro h
    cases h
    have := emitMockStub_err env st g
    rw [h1] at this
    exact this rfl

/-! ## Claim C3: first-match semantics of the pattern table -/

/-- C3: when a name is classified via the pattern table, exactly the first
rule whose matcher accepts it fires its action and has its matcher recorded
in the matched set (no later rule's action runs); and removing any rule
earlier than the matching one changes the classification iff some earlier
rule would have matched (under first-match, never). -/
theorem c3_first_match (stdlib : String → Bool) (st : ExporterState)
    (name : String) (pre post : List Rule) (r : Rule)
    (hroot : canImplicitlyExtern stdlib (rootOf name) = false)
    (hpat : st.patterns = pre ++ r :: post)
    (hpre : ∀ q ∈ pre, q.pattern.matches name = false)
    (hr : r.pattern.matches name = true) :
    (st.patterns.find? (fun q => q.pattern.matches name) = some r) ∧
    (doMatch stdlib st name =
      match runAction st r.action name with
      | Except.error e => Except.error e
      | Except.ok st2 => Except.ok (addMatched st2 r.pattern)) ∧
    (∀ i, i < pre.length →
      ((pre.eraseIdx i ++ r :: post).find?
          (fun q => q.pattern.matches name) = some r) ∧
      ((classificationOf (doMatch stdlib
            { st with patterns := pre.eraseIdx i ++ r :: post } name) ≠
          classificationOf (doMatch stdlib st name)) ↔
        ∃ q ∈ pre, q.pattern.matches name = true)) := by
  have hcompute : ∀ s : ExporterState,
      s.patterns.find? (fun q => q.pattern.matches name) = some r →
      doMatch stdlib s name =
        match runAction s r.action name with
        | Except.error e => Except.error e
        | Except.ok st2 => Except.ok (addMatched st2 r.pattern) := by
    intro s hf
    simp [doMatch, hroot, matchTable, hf]
  have hfind : st.patterns.find? (fun q => q.pattern.matches name) = some r := by
    rw [hpat, find?_append_of_none _ pre _ hpre]
    exact List.find?_cons_of_pos _ hr
  refine ⟨hfind, hcompute st hfind, ?_⟩
  intro i _
  have hpre' : ∀ q ∈ pre.eraseIdx i, q.pattern.matches name = false :=
    fun q hq => hpre q (List.eraseIdx_subset pre i hq)
  have hfindR : (pre.eraseIdx i ++ r :: post).find?
      (fun q => q.pattern.matches name) = some r := by
    rw [find?_append_of_none _ _ _ hpre']
    exact List.find?_cons_of_pos _ hr
  have hfindR' : ({ st with patterns := pre.eraseIdx i ++ r :: post }
      : ExporterState).patterns.find?
      (fun q => q.pattern.matches name) = some r := hfindR
  have hclass : classificationOf (doMatch stdlib
      { st with patterns := pre.eraseIdx i ++ r :: post } name) =
      classificationOf (doMatch stdlib st name) := by
    rw [hcompute st hfind, hcompute _ hfindR']
    cases r.action <;>
      simp [runAction, classificationOf, addMatched, saveInternModule,
        saveExternModule, saveMockModule, Except.map]
  refine ⟨hfindR, ?_, ?_⟩
  · intro hne
    exact absurd hclass hne
  · rintro ⟨q, hq, hqt⟩
    rw [hpre q hq] at hqt
    cases hqt

/-- Witness for C3: with a non-matching mock rule before a matching intern
rule, the intern rule fires, and removing the mock rule leaves the
classification unchanged. -/
theorem c3_witness :
    stC3.patterns.find? (fun q => q.pattern.matches "a") =
      some ⟨⟨["a"], []⟩, Action.intern, true⟩ :=
  (c3_first_match stdlibNone stC3 "a"
    [⟨⟨["b"], []⟩, Action.mock, true⟩] []
    ⟨⟨["a"], []⟩, Action.intern, true⟩
    (by decide) (by decide) (by decide) (by decide)).1

/-! ## Claim C4: empty-match enforcement -/

/-- C4: after all graph nodes have been classified, if any rule with
`allow_empty = false` has a matcher absent from the matched set, sealing
raises `EmptyMatch`; every `EmptyMatch` fault comes from a rule with
`allow_empty = false`, and rules added via `deny` always carry
`allow_empty = true`, so they can never trigger it. -/
theorem c4_empty_match_enforcement (env : Env) (st st1 : ExporterState)
    (h1 : matchPatterns env.stdlib st = Except.ok st1)
    (h2 : unmatchedNodes st1 = []) :
    ((∃ r ∈ st1.patterns, r.allowEmpty = false ∧ r.pattern ∉ st1.matched) →
      ∃ g, (computePatterns env st).2 = some (PkgError.emptyMatch g)) ∧
    (∀ g, (computePatterns env st).2 = some (PkgError.emptyMatch g) →
      ∃ a, (⟨g, a, false⟩ : Rule) ∈ st.patterns) ∧
    (∀ inc exc, (deny st inc exc).patterns =
      st.patterns ++ [⟨⟨inc, exc⟩, Action.deny, true⟩]) := by
  have hcp : computePatterns env st =
      (match emptyViolation st1 with
       | some r => (st1, some (PkgError.emptyMatch r.pattern))
       | none => sealEmit env st1) := by
    simp [computePatterns, h1, h2]
  have hpatfr : st1.patterns = st.patterns :=
    (goMatch_frame env.stdlib (graphNames st) st st1 h1).2.1
  refine ⟨?_, ?_, ?_⟩
  · rintro ⟨r, hrmem, hae, hnm⟩
    rcases hv : emptyViolation st1 with _ | r'
    · exfalso
      have hall := List.find?_eq_none.1 hv r hrmem
      apply hall
      simp [hae, hnm]
    · refine ⟨r'.pattern, ?_⟩
      rw [hcp, hv]
  · intro g h
    rcases hv : emptyViolation st1 with _ | r'
    · rw [hcp, hv] at h
      exact absurd h (sealEmit_err env st1 g)
    · rw [hcp, hv] at h
      simp only [Option.some.injEq, PkgError.emptyMatch.injEq] at h
      have hp := List.find?_some hv
      have hmem := List.mem_of_find?_eq_some hv
      simp only [Bool.and_eq_true, Bool.not_eq_true', decide_eq_false_iff_not]
        at hp
      refine ⟨r'.action, ?_⟩
      rw [← hpatfr]
      have : (⟨g, r'.action, false⟩ : Rule) = r' := by
        cases r'
        simp_all
      rw [this]
      exact hmem
  · intro inc exc
    rfl

/-- Witness for C4, spec scenario 5: `extern("never.*", allow_empty=False)`
with nothing matching it makes sealing raise `EmptyMatch`. -/
theorem c4_witness :
    ∃ g, (computePatterns envTrivial stC4).2 =
      some (PkgError.emptyMatch g) :=
  (c4_empty_match_enforcement envTrivial stC4 stC4 (by rfl) (by rfl)).1
    ⟨⟨⟨["never.*"], []⟩, Action.externalize, false⟩, by decide, by decide,
      by decide⟩

/-! ## Closure frame lemmas: the dependency walk never touches patterns -/

theorem depLoop_patterns
    (reqFn : ExporterState → String → FuelResult ExporterState)
    (hreq : ∀ s d s', reqFn s d = FuelResult.ok s' →
      s'.patterns = s.patterns) (parent : String) :
    ∀ (l : List String) (st st' : ExporterState),
      depLoop reqFn parent l st = FuelResult.ok st' →
      st'.patterns = st.patterns := by
  intro l
  induction l with
  | nil =>
    intro st st' h
    cases h
    rfl
  | cons d rest ih =>
    intro st st' h
    rw [depLoop] at h
    rcases hq : reqFn st d with _ | e | st2
    · rw [hq] at h; cases h
    · rw [hq] at h; cases h
    · rw [hq] at h
      have h1 := hreq st d st2 hq
      have h2 := ih (addEdgeState st2 parent d) st' h
      rw [h2]
      exact h1

theorem saveModuleAux_patterns :
    ∀ (fuel : Nat) (env : Env) (st : ExporterState) (name : String)
      (deps : Bool) (st' : ExporterState),
      saveModuleAux fuel env st name deps = FuelResult.ok st' →
      st'.patterns = st.patterns := by
  intro fuel
  induction fuel with
  | zero =>
    intro env st name deps st' h
    cases h
  | succ fuel ih =>
    intro env st name deps st' h
    rcases him : importModule env name with e | entry
    · simp only [saveModuleAux, him] at h
      cases h
    · rcases hsrc : getSourceOfModule entry name with e | source
      · simp only [saveModuleAux, him, hsrc] at h
        cases h
      · simp only [saveModuleAux, him, hsrc] at h
        rcases deps with _ | _
        · simp only [Bool.false_eq_true, if_false] at h
          cases h
          rfl
        · simp only [if_true] at h
          have := depLoop_patterns _
            (fun s d s' hq => by
              by_cases hg : (containsNode s.graph d ||
                  canImplicitlyExtern env.stdlib d) = true
              · rw [if_pos hg] at hq
                cases hq
                rfl
              · rw [if_neg hg] at hq
                exact ih env s d true s' hq)
            name _ _ _ h
          exact this

theorem requireModuleIfNotProvided_patterns (fuel : Nat) (env : Env)
    (st : ExporterState) (name : String) (deps : Bool)
    (st' : ExporterState)
    (h : requireModuleIfNotProvided fuel env st name deps =
      FuelResult.ok st') :
    st'.patterns = st.patterns := by
  rw [requireModuleIfNotProvided] at h
  by_cases hg : (containsNode st.graph name ||
      canImplicitlyExtern env.stdlib name) = true
  · rw [if_pos hg] at h
    cases h
    rfl
  · rw [if_neg hg] at h
    exact saveModuleAux_patterns fuel env st name deps st' h

/-! ## Claim C1: partition of the graph at seal completion -/

theorem doMatch_cases (stdlib : String → Bool) (st : ExporterState)
    (n : String) (st2 : ExporterState)
    (h : doMatch stdlib st n = Except.ok st2) :
    (st2.internModules = st.internModules ∧
     st2.externModules = st.externModules ∧
     st2.mockModules = st.mockModules) ∨
    (st2.internModules = insertKey st.internModules n ∧
     st2.externModules = st.externModules ∧
     st2.mockModules = st.mockModules) ∨
    (st2.internModules = st.internModules ∧
     st2.externModules = insertKey st.externModules n ∧
     st2.mockModules = st.mockModules) ∨
    (st2.internModules = st.internModules ∧
     st2.externModules = st.externModules ∧
     st2.mockModules = insertKey st.mockModules n) := by
  rw [doMatch] at h
  by_cases hext : canImplicitlyExtern stdlib (rootOf n) = true
  · rw [if_pos hext] at h
    cases h
    right; right; left
    exact ⟨rfl, rfl, rfl⟩
  · rw [if_neg hext] at h
    rw [matchTable] at h
    split at h
    · cases h
      left
      exact ⟨rfl, rfl, rfl⟩
    · rename_i r _
      split at h
      · cases h
      · rename_i st3 hr
        cases h
        cases hact : r.action
        · rw [hact] at hr
          simp only [runAction, Except.ok.injEq] at hr
          subst hr
          right; left
          exact ⟨rfl, rfl, rfl⟩
        · rw [hact] at hr
          simp only [runAction, Except.ok.injEq] at hr
          subst hr
          right; right; right
          exact ⟨rfl, rfl, rfl⟩
        · rw [hact] at hr
          simp only [runAction, Except.ok.injEq] at hr
          subst hr
          right; right; left
          exact ⟨rfl, rfl, rfl⟩
        · rw [hact] at hr
          simp [runAction] at hr

theorem goMatch_invariant (stdlib : String → Bool) :
    ∀ (names : List String) (st st2 : ExporterState),
      goMatch stdlib st names = Except.ok st2 →
      names.Nodup →
      (∀ m, m ∈ st.internModules →
        m ∉ st.externModules ∧ m ∉ st.mockModules) →
      (∀ m, m ∈ st.externModules → m ∉ st.mockModules) →
      (∀ m, inDispositions st m → m ∉ names) →
      (∀ m, m ∈ st2.internModules →
        m ∉ st2.externModules ∧ m ∉ st2.mockModules) ∧
      (∀ m, m ∈ st2.externModules → m ∉ st2.mockModules) := by
  intro names
  induction names with
  | nil =>
    intro st st2 h _ hIE hEM _
    cases h
    exact ⟨hIE, hEM⟩
  | cons n rest ih =>
    intro st st2 h hnodup hIE hEM hfresh
    rw [goMatch] at h
    rcases hd : doMatch stdlib st n with e | st1
    · rw [hd] at h
      cases h
    · rw [hd] at h
      have hn_not : ¬ inDispositions st n :=
        fun hin => hfresh n hin (List.mem_cons_self n rest)
      have hnI : n ∉ st.internModules := fun hx => hn_not (Or.inl hx)
      have hnE : n ∉ st.externModules := fun hx => hn_not (Or.inr (Or.inl hx))
      have hnM : n ∉ st.mockModules := fun hx => hn_not (Or.inr (Or.inr hx))
      have hnodup' := List.nodup_cons.1 hnodup
      rcases doMatch_cases stdlib st n st1 hd with hc | hc | hc | hc
      · exact ih st1 st2 h hnodup'.2
          (fun m hm => by rw [hc.2.1, hc.2.2]; exact hIE m (hc.1 ▸ hm))
          (fun m hm => by rw [hc.2.2]; exact hEM m (hc.2.1 ▸ hm))
          (fun m hm => by
            have : inDispositions st m := by
              rcases hm with hx | hx | hx
              · exact Or.inl (hc.1 ▸ hx)
              · exact Or.inr (Or.inl (hc.2.1 ▸ hx))
              · exact Or.inr (Or.inr (hc.2.2 ▸ hx))
            exact fun hr => hfresh m this (List.mem_cons_of_mem n hr))
      · refine ih st1 st2 h hnodup'.2 ?_ ?_ ?_
        · intro m hm
          rw [hc.2.1, hc.2.2]
          rw [hc.1, mem_insertKey] at hm
          rcases hm with hm | rfl
          · exact hIE m hm
          · exact ⟨hnE, hnM⟩
        · intro m hm
          rw [hc.2.2]
          exact hEM m (hc.2.1 ▸ hm)
        · intro m hm
          have hm' : inDispositions st m ∨ m = n := by
            rcases hm with hx | hx | hx
            · rw [hc.1, mem_insertKey] at hx
              rcases hx with hx | rfl
              · exact Or.inl (Or.inl hx)
              · exact Or.inr rfl
            · exact Or.inl (Or.inr (Or.inl (hc.2.1 ▸ hx)))
            · exact Or.inl (Or.inr (Or.inr (hc.2.2 ▸ hx)))
          rcases hm' with hm' | rfl
          · exact fun hr => hfresh m hm' (List.mem_cons_of_mem n hr)
          · exact hnodup'.1
      · refine ih st1 st2 h hnodup'.2 ?_ ?_ ?_
        · intro m hm
          rw [hc.2.1, mem_insertKey, hc.2.2]
          have hm' := hIE m (hc.1 ▸ hm)
          refine ⟨?_, hm'.2⟩
          rintro (hx | rfl)
          · exact hm'.1 hx
          · exact hnI (hc.1 ▸ hm)
        · intro m hm
          rw [hc.2.2]
          rw [hc.2.1, mem_insertKey] at hm
          rcases hm with hm | rfl
          · exact hEM m hm
          · exact hnM
        · intro m hm
          have hm' : inDispositions st m ∨ m = n := by
            rcases hm with hx | hx | hx
            · exact Or.inl (Or.inl (hc.1 ▸ hx))
            · rw [hc.2.1, mem_insertKey] at hx
              rcases hx with hx | rfl
              · exact Or.inl (Or.inr (Or.inl hx))
              · exact Or.inr rfl
            · exact Or.inl (Or.inr (Or.inr (hc.2.2 ▸ hx)))
          rcases hm' with hm' | rfl
          · exact fun hr => hfresh m hm' (List.mem_cons_of_mem n hr)
          · exact hnodup'.1
      · refine ih st1 st2 h hnodup'.2 ?_ ?_ ?_
        · intro m hm
          rw [hc.2.1, hc.2.2, mem_insertKey]
          have hm' := hIE m (hc.1 ▸ hm)
          refine ⟨hm'.1, ?_⟩
          rintro (hx | rfl)
          · exact hm'.2 hx
          · exact hnI (hc.1 ▸ hm)
        · intro m hm
          rw [hc.2.2, mem_insertKey]
          have hm' := hEM m (hc.2.1 ▸ hm)
          rintro (hx | rfl)
          · exact hm' hx
          · exact hnE (hc.2.1 ▸ hm)
        · intro m hm
          have hm' : inDispositions st m ∨ m = n := by
            rcases hm with hx | hx | hx
            · exact Or.inl (Or.inl (hc.1 ▸ hx))
            · exact Or.inl (Or.inr (Or.inl (hc.2.1 ▸ hx)))
            · rw [hc.2.2, mem_insertKey] at hx
              rcases hx with hx | rfl
              · exact Or.inl (Or.inr (Or.inr hx))
              · exact Or.inr rfl
          rcases hm' with hm' | rfl
          · exact fun hr => hfresh m hm' (List.mem_cons_of_mem n hr)
          · exact hnodup'.1

/-- C1: at seal completion every graph node is in exactly one of the
interned, externed, mocked tables (pairwise disjoint, jointly covering);
and when some node is covered by none of them, sealing raises the
unclassified-module error before emitting any record. -/
theorem c1_partition_at_seal (env : Env) (st : ExporterState)
    (hnodup : (graphNames st).Nodup)
    (hI : st.internModules = []) (hE : st.externModules = [])
    (hM : st.mockModules = []) :
    ((computePatterns env st).2 = none →
      ∀ n ∈ graphNames st,
        (n ∈ (computePatterns env st).1.internModules ∧
         n ∉ (computePatterns env st).1.externModules ∧
         n ∉ (computePatterns env st).1.mockModules) ∨
        (n ∉ (computePatterns env st).1.internModules ∧
         n ∈ (computePatterns env st).1.externModules ∧
         n ∉ (computePatterns env st).1.mockModules) ∨
        (n ∉ (computePatterns env st).1.internModules ∧
         n ∉ (computePatterns env st).1.externModules ∧
         n ∈ (computePatterns env st).1.mockModules)) ∧
    (∀ st1, matchPatterns env.stdlib st = Except.ok st1 →
      unmatchedNodes st1 ≠ [] →
      computePatterns env st =
        (st1, some (PkgError.unclassified (unmatchedNodes st1))) ∧
      st1.records = st.records) := by
  constructor
  · intro h0 n hn
    rcases hmp : matchPatterns env.stdlib st with e | st1
    · rw [computePatterns, hmp] at h0
      cases h0
    · by_cases hun : unmatchedNodes st1 = []
      · rcases hev : emptyViolation st1 with _ | r
        · have hcp : computePatterns env st = sealEmit env st1 := by
            simp [computePatterns, hmp, hun, hev]
          have hfr := goMatch_frame env.stdlib (graphNames st) st st1 hmp
          have hgn : graphNames st1 = graphNames st := by
            unfold graphNames
            rw [hfr.1]
          have hl := sealEmit_lists env st1
          have hdisj := goMatch_invariant env.stdlib (graphNames st) st st1
            hmp hnodup
            (by rw [hI]; intro m hm; cases hm)
            (by rw [hE]; intro m hm; cases hm)
            (by intro m hm; exfalso
                rcases hm with hx | hx | hx
                · rw [hI] at hx; cases hx
                · rw [hE] at hx; cases hx
                · rw [hM] at hx; cases hx)
          have hcov : n ∈ st1.internModules ∨ n ∈ st1.externModules ∨
              n ∈ st1.mockModules := by
            have hnn : n ∈ graphNames st1 := by rw [hgn]; exact hn
            have := List.filter_eq_nil_iff.1 hun n hnn
            simp only [Bool.not_eq_true', Bool.or_eq_false_iff,
              decide_eq_false_iff_not] at this
            by_contra hcon
            push_neg at hcon
            exact this ⟨⟨hcon.1, hcon.2.1⟩, hcon.2.2⟩
          rw [hcp]
          rw [hl.1, hl.2.1, hl.2.2]
          rcases hcov with hi | he | hm
          · exact Or.inl ⟨hi, (hdisj.1 n hi).1, (hdisj.1 n hi).2⟩
          · exact Or.inr (Or.inl
              ⟨fun hi => (hdisj.1 n hi).1 he, he, hdisj.2 n he⟩)
          · exact Or.inr (Or.inr
              ⟨fun hi => (hdisj.1 n hi).2 hm, fun he => hdisj.2 n he hm, hm⟩)
        · exfalso
          have : (computePatterns env st).2 =
              some (PkgError.emptyMatch r.pattern) := by
            simp [computePatterns, hmp, hun, hev]
          rw [h0] at this
          cases this
      · exfalso
        have : (computePatterns env st).2 =
            some (PkgError.unclassified (unmatchedNodes st1)) := by
          simp [computePatterns, hmp, hun]
        rw [h0] at this
        cases this
  · intro st1 hmp hne
    have hfr := goMatch_frame env.stdlib (graphNames st) st st1 hmp
    constructor
    · simp [computePatterns, hmp, hne]
    · exact hfr.2.2.1

/-- Witness for C1: a one-node exporter seals without error and the node
lands in exactly the interned table. -/
theorem c1_witness :
    (computePatterns envTrivial stC1).2 = none ∧
      (("a" ∈ (computePatterns envTrivial stC1).1.internModules ∧
        "a" ∉ (computePatterns envTrivial stC1).1.externModules ∧
        "a" ∉ (computePatterns envTrivial stC1).1.mockModules) ∨
       ("a" ∉ (computePatterns envTrivial stC1).1.internModules ∧
        "a" ∈ (computePatterns envTrivial stC1).1.externModules ∧
        "a" ∉ (computePatterns envTrivial stC1).1.mockModules) ∨
       ("a" ∉ (computePatterns envTrivial stC1).1.internModules ∧
        "a" ∉ (computePatterns envTrivial stC1).1.externModules ∧
        "a" ∈ (computePatterns envTrivial stC1).1.mockModules)) :=
  ⟨by decide,
    (c1_partition_at_seal envTrivial stC1 (by decide) rfl rfl rfl).1
      (by decide) "a" (by decide)⟩

/-! ## Claim C10: implicit intern rules versus implicit externing -/

/-- C10: `save_source_string` and `save_module` prepend an intern rule for
exactly the saved name with `allow_empty = false`; consequently, when the
saved name is implicitly externed at seal time, that rule never enters the
matched set and sealing raises `EmptyMatch` even though the module was
classified (and recorded) as an extern. -/
theorem c10_implicit_intern_empty_match (env : Env) (fuel : Nat)
    (st : ExporterState) (name src : String) (isPkg deps : Bool)
    (himpl : canImplicitlyExtern env.stdlib (rootOf name) = true) :
    (∀ stR, saveSourceString fuel env st name src isPkg deps =
        FuelResult.ok stR →
      stR.patterns =
        ⟨globSingle name, Action.intern, false⟩ :: st.patterns) ∧
    (∀ stR, saveModule fuel env st name deps = FuelResult.ok stR →
      stR.patterns =
        ⟨globSingle name, Action.intern, false⟩ :: st.patterns) ∧
    (∀ st2, saveSourceString fuel env initialState name src isPkg false =
        FuelResult.ok st2 →
      ∃ stF, computePatterns env st2 =
          (stF, some (PkgError.emptyMatch (globSingle name))) ∧
        name ∈ stF.externModules) := by
  refine ⟨?_, ?_, ?_⟩
  · intro stR h
    rw [saveSourceString] at h
    rcases deps with _ | _
    · simp only [Bool.false_eq_true, if_false] at h
      cases h
      rfl
    · simp only [if_true] at h
      have := depLoop_patterns _
        (fun s d s' hq =>
          requireModuleIfNotProvided_patterns fuel env s d true s' hq)
        name _ _ _ h
      rw [this]
      rfl
  · intro stR h
    rw [saveModule] at h
    have := saveModuleAux_patterns fuel env _ name deps stR h
    rw [this]
    rfl
  · intro st2 h
    have h' : FuelResult.ok (afterSaveSourceOnly name src isPkg) =
        FuelResult.ok st2 := h
    have hX : afterSaveSourceOnly name src isPkg = st2 := by
      injection h'
    subst hX
    have hmp : matchPatterns env.stdlib (afterSaveSourceOnly name src isPkg) =
        Except.ok (afterSaveSourceExt name src isPkg) := by
      simp [matchPatterns, graphNames, goMatch, doMatch, himpl,
        saveExternModule, insertKey, afterSaveSourceOnly, afterSaveSourceExt]
    refine ⟨afterSaveSourceExt name src isPkg, ?_, ?_⟩
    · simp only [computePatterns, hmp]
      have hun : unmatchedNodes (afterSaveSourceExt name src isPkg) = [] := by
        simp [unmatchedNodes, graphNames, afterSaveSourceOnly,
          afterSaveSourceExt]
      rw [hun]
      simp [emptyViolation, List.find?, afterSaveSourceOnly,
        afterSaveSourceExt]
    · simp [afterSaveSourceOnly, afterSaveSourceExt]

/-- Witness for C10: saving source for the name `torch` (whose root is
always implicitly externable) and sealing raises `EmptyMatch` for the
prepended intern rule, while `torch` itself sits in the extern table. -/
theorem c10_witness :
    ∃ stF, computePatterns envTrivial stC10 =
        (stF, some (PkgError.emptyMatch (globSingle "torch"))) ∧
      "torch" ∈ stF.externModules :=
  (c10_implicit_intern_empty_match envTrivial 1 initialState "torch" "x = 1"
    false false (by decide)).2.2 stC10 (by decide)

/-! ## Claim C8: pickle-key nodes -/

theorem writeRecord_patterns_graph (st : ExporterState) (f c : String) :
    (writeRecord st f c).1.patterns = st.patterns ∧
    (writeRecord st f c).1.graph = st.graph := by
  unfold writeRecord
  split <;> exact ⟨rfl, rfl⟩

/-- C8 counterexample: a `mock("**")` rule added before `save_pickle`
precedes the intern rule that `save_pickle` appends, so at seal time the
pickle-key node `<p.r>` is classified as mocked, not interned — refuting
"every pickle-key node created by save_pickle is classified as interned at
seal time". -/
theorem c8_counterexample :
    savePickle 1 envTrivial (mock initialState ["**"] [] true) "p" "r" []
        "DATA" false = FuelResult.ok stC8 ∧
      matchPatterns envTrivial.stdlib stC8 = Except.ok stC8m ∧
      "<p.r>" ∈ stC8m.mockModules ∧ "<p.r>" ∉ stC8m.internModules := by
  refine ⟨by decide, by rfl, by decide, by decide⟩

/-- C8 (amended): `save_pickle` appends an intern rule for exactly the
pickle-key name and marks the node `is_pickle`; provided no earlier rule in
the pattern table matches the pickle-key name and its root is not
implicitly externable, classification interns it; and in all cases the
interned emission loop skips `is_pickle` nodes, so no source record is
written for a pickle-key node. -/
theorem c8_pickle_node_interned (env : Env) (fuel : Nat)
    (st : ExporterState) (package resource : String)
    (dataOps : List (String × String)) (dataValue : String) :
    (∀ stP, savePickle fuel env st package resource dataOps dataValue
        false = FuelResult.ok stP →
      (stP.patterns = st.patterns ++
        [⟨globSingle ("<" ++ package ++ "." ++ resource ++ ">"),
          Action.intern, true⟩] ∧
       ∃ attrs,
         lookupNode stP.graph ("<" ++ package ++ "." ++ resource ++ ">") =
           some attrs ∧ attrs.isPickle = some true) ∧
      (canImplicitlyExtern env.stdlib
          (rootOf ("<" ++ package ++ "." ++ resource ++ ">")) = false →
       (∀ q ∈ st.patterns,
          q.pattern.matches ("<" ++ package ++ "." ++ resource ++ ">") =
            false) →
       "**" ∉ splitChar '.' ("<" ++ package ++ "." ++ resource ++ ">") →
       ∃ st3, doMatch env.stdlib stP
           ("<" ++ package ++ "." ++ resource ++ ">") = Except.ok st3 ∧
         ("<" ++ package ++ "." ++ resource ++ ">") ∈
           st3.internModules)) ∧
    (∀ (s : ExporterState) (m : String) (attrs : NodeAttrs),
      lookupNode s.graph m = some attrs → attrs.isPickle = some true →
      internStep env s m = (s, none)) := by
  constructor
  · intro stP h
    have hbook : stP.patterns = st.patterns ++
        [⟨globSingle ("<" ++ package ++ "." ++ resource ++ ">"),
          Action.intern, true⟩] ∧
        ∃ attrs,
          lookupNode stP.graph ("<" ++ package ++ "." ++ resource ++ ">") =
            some attrs ∧ attrs.isPickle = some true := by
      rw [savePickle] at h
      simp only [Bool.false_eq_true, if_false, writeRecord] at h
      by_cases hm : isMangled (pkgFilename env package resource) = true
      · rw [if_pos hm] at h
        simp at h
      · rw [if_neg hm] at h
        cases h
        constructor
        · rfl
        · refine ⟨_, lookupNode_addNodeAttrs_self _ _ _, ?_⟩
          rcases lookupNode (intern st
              ["<" ++ package ++ "." ++ resource ++ ">"] [] true).graph
              ("<" ++ package ++ "." ++ resource ++ ">") with _ | old
          · rfl
          · rfl
    refine ⟨hbook, ?_⟩
    intro himp hearlier hseg
    have hfind : stP.patterns.find?
        (fun q => q.pattern.matches
          ("<" ++ package ++ "." ++ resource ++ ">")) =
        some ⟨globSingle ("<" ++ package ++ "." ++ resource ++ ">"),
          Action.intern, true⟩ := by
      rw [hbook.1, find?_append_of_none _ _ _ hearlier]
      exact List.find?_cons_of_pos _ (globSingle_matches_self _ hseg)
    refine ⟨addMatched (saveInternModule stP
        ("<" ++ package ++ "." ++ resource ++ ">"))
        (globSingle ("<" ++ package ++ "." ++ resource ++ ">")), ?_, ?_⟩
    · simp [doMatch, himp, matchTable, hfind, runAction]
    · simp only [addMatched, saveInternModule]
      exact self_mem_insertKey _ _
  · intro s m attrs hl hp
    simp [internStep, hl, hp]

/-- Witness for C8: on the concrete pickle state, classification interns
`<p.r>` when no earlier rule interferes, and the interned emission loop
skips the node. -/
theorem c8_witness :
    (∃ st3, doMatch envTrivial.stdlib stC8i "<p.r>" = Except.ok st3 ∧
      "<p.r>" ∈ st3.internModules) ∧
    internStep envTrivial stC8i "<p.r>" = (stC8i, none) := by
  have hmain := c8_pickle_node_interned envTrivial 1 initialState "p" "r" []
    "DATA"
  refine ⟨((hmain.1 stC8i (by decide)).2 (by decide) (by decide)
    (by decide)), ?_⟩
  exact hmain.2 stC8i "<p.r>" ⟨none, none, some true⟩ (by decide) (by decide)

/-! ## Claim C6: termination of the dependency closure -/

theorem lookupMod_mem (n : String) :
    ∀ (l : List (String × ModEntry)) (v : ModEntry),
      lookupMod l n = some v → n ∈ l.map Prod.fst := by
  intro l
  induction l with
  | nil => intro v h; cases h
  | cons kv rest ih =>
    intro v h
    obtain ⟨k, e⟩ := kv
    by_cases hk : k = n
    · subst hk
      exact List.mem_cons_self _ _
    · rw [lookupMod, if_neg hk] at h
      exact List.mem_cons_of_mem _ (ih v h)

theorem importModule_mem (env : Env) (name : String) (entry : ModEntry)
    (h : importModule env name = Except.ok entry) :
    name ∈ env.modules.map Prod.fst := by
  rw [importModule] at h
  rcases hl : lookupMod env.modules name with _ | v
  · rw [hl] at h
    cases h
  · exact lookupMod_mem name env.modules v hl

theorem countMissing_le (env : Env) (st st' : ExporterState)
    (h : ∀ m, containsNode st.graph m = true →
      containsNode st'.graph m = true) :
    countMissing env st' ≤ countMissing env st := by
  refine length_filter_le_of_imp _ _ _ ?_
  intro a _ hp
  simp only [Bool.not_eq_true'] at hp ⊢
  rcases hc : containsNode st.graph a with _ | _
  · rfl
  · rw [h a hc] at hp
    cases hp

theorem countMissing_lt (env : Env) (st st' : ExporterState) (name : String)
    (hmono : ∀ m, containsNode st.graph m = true →
      containsNode st'.graph m = true)
    (henv : name ∈ env.modules.map Prod.fst)
    (hnot : containsNode st.graph name = false)
    (hnow : containsNode st'.graph name = true) :
    countMissing env st' < countMissing env st := by
  refine length_filter_lt_of_witness _ _ name ?_ ?_ _ ?_ henv
  · simp [hnot]
  · simp [hnow]
  · intro a _ hp
    simp only [Bool.not_eq_true'] at hp ⊢
    rcases hc : containsNode st.graph a with _ | _
    · rfl
    · rw [hmono a hc] at hp
      cases hp

theorem depLoop_graph_mono
    (reqFn : ExporterState → String → FuelResult ExporterState)
    (hreq : ∀ s d s', reqFn s d = FuelResult.ok s' →
      ∀ m, containsNode s.graph m = true → containsNode s'.graph m = true)
    (parent : String) :
    ∀ (l : List String) (st st' : ExporterState),
      depLoop reqFn parent l st = FuelResult.ok st' →
      ∀ m, containsNode st.graph m = true →
        containsNode st'.graph m = true := by
  intro l
  induction l with
  | nil =>
    intro st st' h m hm
    cases h
    exact hm
  | cons d rest ih =>
    intro st st' h m hm
    rw [depLoop] at h
    rcases hq : reqFn st d with _ | e | st2
    · rw [hq] at h; cases h
    · rw [hq] at h; cases h
    · rw [hq] at h
      exact ih (addEdgeState st2 parent d) st' h m
        (containsNode_addEdgeState st2 parent d m (hreq st d st2 hq m hm))

theorem saveModuleAux_graph_mono :
    ∀ (fuel : Nat) (env : Env) (st : ExporterState) (name : String)
      (deps : Bool) (st' : ExporterState),
      saveModuleAux fuel env st name deps = FuelResult.ok st' →
      ∀ m, containsNode st.graph m = true →
        containsNode st'.graph m = true := by
  intro fuel
  induction fuel with
  | zero =>
    intro env st name deps st' h
    cases h
  | succ fuel ih =>
    intro env st name deps st' h m hm
    rcases him : importModule env name with e | entry
    · simp only [saveModuleAux, him] at h
      cases h
    · rcases hsrc : getSourceOfModule entry name with e | source
      · simp only [saveModuleAux, him, hsrc] at h
        cases h
      · simp only [saveModuleAux, him, hsrc] at h
        have hm1 : containsNode (addNodeBare st.graph name) m = true :=
          containsNode_addNodeAttrs_mono st.graph name m _ hm
        rcases deps with _ | _
        · simp only [Bool.false_eq_true, if_false] at h
          cases h
          exact hm1
        · simp only [if_true] at h
          refine depLoop_graph_mono _ ?_ name _ _ _ h m hm1
          intro s d s' hq
          by_cases hg : (containsNode s.graph d ||
              canImplicitlyExtern env.stdlib d) = true
          · rw [if_pos hg] at hq
            cases hq
            exact fun _ hx => hx
          · rw [if_neg hg] at hq
            exact ih env s d true s' hq

theorem depLoop_not_out (env : Env) (B : Nat)
    (reqFn : ExporterState → String → FuelResult ExporterState)
    (hreq_out : ∀ s d, countMissing env s < B →
      reqFn s d ≠ FuelResult.out)
    (hreq_mono : ∀ s d s', reqFn s d = FuelResult.ok s' →
      ∀ m, containsNode s.graph m = true → containsNode s'.graph m = true)
    (parent : String) :
    ∀ (l : List String) (st : ExporterState),
      countMissing env st < B →
      depLoop reqFn parent l st ≠ FuelResult.out := by
  intro l
  induction l with
  | nil =>
    intro st _ h
    cases h
  | cons d rest ih =>
    intro st hb
    rw [depLoop]
    rcases hq : reqFn st d with _ | e | st2
    · exact absurd hq (hreq_out st d hb)
    · intro h
      cases h
    · have hmono := hreq_mono st d st2 hq
      have hb2 : countMissing env (addEdgeState st2 parent d) < B := by
        have h1 : countMissing env (addEdgeState st2 parent d) ≤
            countMissing env st :=
          countMissing_le env st (addEdgeState st2 parent d)
            (fun m hm => containsNode_addEdgeState st2 parent d m
              (hmono m hm))
        omega
      exact ih (addEdgeState st2 parent d) hb2

theorem saveModuleAux_not_out :
    ∀ (fuel : Nat) (env : Env) (st : ExporterState) (name : String)
      (deps : Bool),
      countMissing env st < fuel →
      containsNode st.graph name = false →
      saveModuleAux fuel env st name deps ≠ FuelResult.out := by
  intro fuel
  induction fuel with
  | zero =>
    intro env st name deps hb _
    omega
  | succ fuel ih =>
    intro env st name deps hb hnot
    rcases him : importModule env name with e | entry
    · simp only [saveModuleAux, him]
      intro h
      cases h
    · rcases hsrc : getSourceOfModule entry name with e | source
      · simp only [saveModuleAux, him, hsrc]
        intro h
        cases h
      · simp only [saveModuleAux, him, hsrc]
        have henv := importModule_mem env name entry him
        have hlt : countMissing env
            ({ st with graph := addNodeBare st.graph name }) <
            countMissing env st := by
          refine countMissing_lt env st _ name ?_ henv hnot ?_
          · exact fun m hm => containsNode_addNodeAttrs_mono st.graph name m
              _ hm
          · exact containsNode_addNodeAttrs_self st.graph name _
        rcases deps with _ | _
        · simp only [Bool.false_eq_true, if_false]
          intro h
          cases h
        · simp only [if_true]
          refine depLoop_not_out env fuel _ ?_ ?_ name _ _ (by omega)
          · intro s d hbs
            by_cases hg : (containsNode s.graph d ||
                canImplicitlyExtern env.stdlib d) = true
            · rw [if_pos hg]
              intro h
              cases h
            · rw [if_neg hg]
              have hnd : containsNode s.graph d = false := by
                rcases hc : containsNode s.graph d with _ | _
                · rfl
                · exfalso
                  apply hg
                  rw [hc]
                  rfl
              exact ih env s d true hbs hnd
          · intro s d s' hq
            by_cases hg : (containsNode s.graph d ||
                canImplicitlyExtern env.stdlib d) = true
            · rw [if_pos hg] at hq
              cases hq
              exact fun _ hx => hx
            · rw [if_neg hg] at hq
              exact saveModuleAux_graph_mono fuel env s d true s' hq

/-- C6: the dependency closure terminates on every input, including
mutually-importing modules: with fuel exceeding the number of importable
modules missing from the graph, `require_module_if_not_provided` never
exhausts its fuel; it returns the state unchanged, without recursing,
whenever the name is already a graph node or is implicitly externable; and
a successful `_save_module` leaves the module's node in the graph (it is
added before the recursion), so each module is saved at most once. -/
theorem c6_closure_terminates (env : Env) (st : ExporterState)
    (name : String) (fuel : Nat)
    (hfuel : countMissing env st < fuel) :
    requireModuleIfNotProvided fuel env st name true ≠ FuelResult.out ∧
    ((containsNode st.graph name = true ∨
      canImplicitlyExtern env.stdlib name = true) →
      requireModuleIfNotProvided fuel env st name true = FuelResult.ok st) ∧
    (∀ deps st', saveModuleAux fuel env st name deps = FuelResult.ok st' →
      containsNode st'.graph name = true) := by
  refine ⟨?_, ?_, ?_⟩
  · rw [requireModuleIfNotProvided]
    by_cases hg : (containsNode st.graph name ||
        canImplicitlyExtern env.stdlib name) = true
    · rw [if_pos hg]
      intro h
      cases h
    · rw [if_neg hg]
      have hnd : containsNode st.graph name = false := by
        rcases hc : containsNode st.graph name with _ | _
        · rfl
        · exfalso
          apply hg
          rw [hc]
          rfl
      exact saveModuleAux_not_out fuel env st name true hfuel hnd
  · intro hcase
    rw [requireModuleIfNotProvided, requireModule, if_pos]
    rcases hcase with hc | hc <;> simp [hc]
  · intro deps st' h
    rcases fuel with _ | fuel
    · cases h
    · rcases him : importModule env name with e | entry
      · simp only [saveModuleAux, him] at h
        cases h
      · rcases hsrc : getSourceOfModule entry name with e | source
        · simp only [saveModuleAux, him, hsrc] at h
          cases h
        · simp only [saveModuleAux, him, hsrc] at h
          have hm1 : containsNode (addNodeBare st.graph name) name = true :=
            containsNode_addNodeAttrs_self st.graph name _
          rcases deps with _ | _
          · simp only [Bool.false_eq_true, if_false] at h
            cases h
            exact hm1
          · simp only [if_true] at h
            refine depLoop_graph_mono _ ?_ name _ _ _ h name hm1
            intro s d s' hq
            by_cases hg : (containsNode s.graph d ||
                canImplicitlyExtern env.stdlib d) = true
            · rw [if_pos hg] at hq
              cases hq
              exact fun _ hx => hx
            · rw [if_neg hg] at hq
              exact saveModuleAux_graph_mono fuel env s d true s' hq

/-- Witness for C6: two mutually-importing modules (`a` imports `b`,
`b` imports `a`): the closure from `a` terminates with fuel 3. -/
theorem c6_witness :
    requireModuleIfNotProvided 3 envCyc initialState "a" true ≠
      FuelResult.out :=
  (c6_closure_terminates envCyc initialState "a" 3 (by decide)).1

end TorchPackage
